import Mathlib

/-!
# cxxnet synchronizer: `src/sync/sync_impl-inl.hpp`

A shallow embedding of `cxxnet::sync::SimpleSynch` and `cxxnet::sync::CreateSynch`.

Conventions of the embedding.

* A `mshadow::Tensor<xpu,2>` is a handle on a block of memory.  The block is a
  `List α` (`dptr_`); `shape_` and the value of `MSize()` come from the mshadow
  library, which is outside the repository, so both are carried as data.
  Memory blocks of different tensors do not overlap.
* A `mshadow::TensorContainer<xpu,1>` is the list of its elements; `size(0)` is
  its length, a default constructed container is `[]`.
* Copy sizes are counted in elements instead of bytes (`sizeof(real_t) * n` bytes
  hold `n` elements).
* A failed `utils::Assert`, `utils::Check` or `utils::Error` ends the call with a
  `Fault` that records the message.
* An access outside a vector or memory block has no defined result; the sync
  methods return `none` there and the constructor reports `Fault.Undefined`.
* What the build and the device runtime decide (`__CUDACC__`, `xpu::kDevCPU`, the
  result of the CUDA calls, the content of fresh memory) is the `Runtime` record.
-/

namespace cxxnet.sync

/-- Handle `mshadow::Tensor<xpu,2>`: memory block, shape and the value of `MSize()`. -/
structure Tensor (S α : Type) where
  dptr_ : List α
  shape_ : S
  MSize : Nat
deriving DecidableEq

/-- Build switches and device runtime seen by the synchronizer. -/
structure Runtime (α : Type) where
  /-- compiled with `__CUDACC__` defined -/
  cudacc : Bool
  /-- the constant `xpu::kDevCPU` -/
  kDevCPU : Bool
  /-- device written by `cudaGetDevice` when it returns `cudaSuccess` -/
  cudaGetDevice : Option Int
  /-- whether `cudaDeviceEnablePeerAccess(dev, 0)` returns `cudaSuccess` -/
  cudaDeviceEnablePeerAccess : Int → Bool
  /-- content of a freshly resized container: allocation number, then index -/
  uninit : Nat → Nat → α
  /-- value of an `int` member that has not been assigned yet -/
  indet : Int

/-- Members of `class SimpleSynch`. -/
structure SimpleSynch (S α : Type) where
  sync_weight : Int
  tag : String
  host_device : Int
  wtmp : List α
  wsum : List α
  weights : List (Tensor S α)
  grads : List (Tensor S α)
  devices : List Int
deriving DecidableEq

/-- Ways a call can end without a result. -/
inductive Fault where
  | Assert (msg : String)
  | Check (msg : String)
  | Error (msg : String)
  | Undefined
deriving DecidableEq

/-- A constructor that did not finish: the fault and the object as it stood then. -/
structure Failure (S α : Type) where
  fault : Fault
  obj : SimpleSynch S α

/-- Loop `for (size_t i = lo; i < lo + n; ++i) body`: `n` rounds starting at index `i`. -/
def forLoop {σ : Type} (body : Nat → σ → Option σ) : Nat → Nat → σ → Option σ
  | 0, _, st => some st
  | n + 1, i, st => (body i st).bind (forLoop body n (i + 1))

/-- The effect of `memcpy(dst, src, size)` on the destination block. -/
def memcpy {α : Type} (dst src : List α) (size : Nat) : Option (List α) :=
  if size ≤ src.length ∧ size ≤ dst.length then some (src.take size ++ dst.drop size) else none

/-- Static method `SimpleSynch::Copy`.  `cudaMemcpy` and `cudaMemcpyPeer` move the
same `size` elements as `memcpy`. -/
def Copy {α : Type} (rt : Runtime α) (dst : List α) (dst_dev : Int) (src : List α)
    (src_dev : Int) (size : Nat) : Option (List α) :=
  if rt.cudacc then
    if !rt.kDevCPU then
      if dst_dev = src_dev then memcpy dst src size else memcpy dst src size
    else memcpy dst src size
  else memcpy dst src size

/-- The mshadow statement `dst += src` on two 1-d containers of one shape. -/
def plusAssign {α : Type} (add : α → α → α) (dst src : List α) : Option (List α) :=
  if dst.length = src.length then some (List.zipWith add dst src) else none

/-- `TensorContainer::Resize(Shape1(n))` for allocation number `k`. -/
def Resize {α : Type} (rt : Runtime α) (k n : Nat) : List α :=
  (List.range n).map (rt.uninit k)

/-- The loop of the constructor that calls `cudaDeviceEnablePeerAccess(devices[i], 0)`
for `i < n` when `devices[i] != host_device`.  The state of the loop is the list of
the status codes returned so far; the constructor looks at none of them. -/
def enablePeers {α : Type} (rt : Runtime α) (host_device : Int) (devices : List Int)
    (n : Nat) : Option (List Bool) :=
  forLoop (fun i codes =>
    devices[i]?.bind fun d =>
      if d ≠ host_device then some (codes ++ [rt.cudaDeviceEnablePeerAccess d])
      else some codes) n 0 []

/-- The two assertions in the body of both shape loops of the constructor. -/
def shapeOk {S α : Type} [DecidableEq S] (w0 t : Tensor S α) : Bool :=
  decide (t.shape_ = w0.shape_) && decide (t.MSize = w0.MSize)

/-- The part of the constructor under the `__CUDACC__` switch. -/
def cudaSetup {S α : Type} (rt : Runtime α) (self : SimpleSynch S α) :
    Except (Failure S α) (SimpleSynch S α) :=
  if rt.cudacc then
    let got : Except (Failure S α) (SimpleSynch S α) :=
      if !rt.kDevCPU then
        match rt.cudaGetDevice with
        | some d => .ok { self with host_device := d }
        | none => .error ⟨Fault.Check "cannot get device", self⟩
      else .ok self
    match got with
    | .error e => .error e
    | .ok self1 =>
      match enablePeers rt self1.host_device self1.devices self1.grads.length with
      | none => .error ⟨Fault.Undefined, self1⟩
      | some _ => .ok self1
  else .ok self

/-- Constructor `SimpleSynch::SimpleSynch(tag, weights, grads, devices)`. -/
def SimpleSynch.new {S α : Type} [DecidableEq S] (rt : Runtime α) (tag : String)
    (weights grads : List (Tensor S α)) (devices : List Int) :
    Except (Failure S α) (SimpleSynch S α) :=
  let self : SimpleSynch S α :=
    { sync_weight := rt.indet, tag := tag, host_device := rt.indet,
      wtmp := [], wsum := [], weights := weights, grads := grads, devices := devices }
  match weights with
  | [] => .error ⟨Fault.Assert "empty list", self⟩
  | w0 :: rest =>
    if weights.length ≠ grads.length then
      .error ⟨Fault.Assert "SimpleSynch grad weights size mismatch", self⟩
    else if !(rest.all (shapeOk w0)) then
      .error ⟨Fault.Assert "SimpleSynch shape mismatch", self⟩
    else if !(grads.all (shapeOk w0)) then
      .error ⟨Fault.Assert "SimpleSynch shape mismatch", self⟩
    else
      match cudaSetup rt { self with host_device := 0 } with
      | .error e => .error e
      | .ok self1 =>
        let self2 : SimpleSynch S α :=
          if weights.length > 1 then
            { self1 with wtmp := Resize rt 0 w0.MSize, wsum := Resize rt 1 w0.MSize }
          else self1
        .ok { self2 with sync_weight := 1 }

/-- C library `strncmp(a, b, n)`: `0` exactly when the first `n` characters agree
(strings hold no NUL before their end); the sign of another result is not kept. -/
def strncmp (a b : String) (n : Nat) : Int :=
  if a.data.take n = b.data.take n then 0 else 1

/-- C library `strcmp(a, b)`, with the same convention as `strncmp`. -/
def strcmp (a b : String) : Int :=
  if a = b then 0 else 1

/-- Method `SimpleSynch::SetParam(name, val)`; `atoi` is the C library function. -/
def SimpleSynch.SetParam {S α : Type} (atoi : String → Int) (s : SimpleSynch S α)
    (name val : String) : SimpleSynch S α :=
  let name1 : String :=
    if strncmp name s.tag s.tag.length = 0 then
      if name.data[s.tag.length]? = some ':' then ⟨name.data.drop (s.tag.length + 1)⟩
      else name
    else name
  if strcmp name1 "sync_weight" = 0 then { s with sync_weight := atoi val } else s

/-- Body of the reduction loop of `SyncBeforeUpdate`. -/
def sumBody {S α : Type} (rt : Runtime α) (add : α → α → α) (i : Nat)
    (s : SimpleSynch S α) : Option (SimpleSynch S α) :=
  s.grads[i]?.bind fun g =>
  s.devices[i]?.bind fun d =>
  (Copy rt s.wtmp s.host_device g.dptr_ d s.wtmp.length).bind fun wtmp =>
  (plusAssign add s.wsum wtmp).bind fun wsum =>
  some { s with wtmp := wtmp, wsum := wsum }

/-- Body of the copy-back loop of `SyncBeforeUpdate`. -/
def backBody {S α : Type} (rt : Runtime α) (i : Nat)
    (s : SimpleSynch S α) : Option (SimpleSynch S α) :=
  s.grads[i]?.bind fun g =>
  s.devices[i]?.bind fun d =>
  (Copy rt g.dptr_ d s.wsum s.host_device s.wsum.length).bind fun p =>
  some { s with grads := s.grads.set i { g with dptr_ := p } }

/-- Method `SimpleSynch::SyncBeforeUpdate()`; `add` is the addition of `real_t`. -/
def SimpleSynch.SyncBeforeUpdate {S α : Type} (rt : Runtime α) (add : α → α → α)
    (s : SimpleSynch S α) : Option (SimpleSynch S α) :=
  if s.weights.length = 1 then some s
  else
    s.grads[0]?.bind fun g0 =>
    s.devices[0]?.bind fun d0 =>
    (Copy rt s.wsum s.host_device g0.dptr_ d0 s.wsum.length).bind fun wsum =>
    (forLoop (sumBody rt add) (s.grads.length - 1) 1 { s with wsum := wsum }).bind fun s1 =>
    forLoop (backBody rt) s1.grads.length 0 s1

/-- Body of the loop of `SyncAfterUpdate`. -/
def bcastBody {S α : Type} (rt : Runtime α) (i : Nat)
    (s : SimpleSynch S α) : Option (SimpleSynch S α) :=
  s.weights[i]?.bind fun w =>
  s.devices[i]?.bind fun d =>
  s.weights[0]?.bind fun w0 =>
  s.devices[0]?.bind fun d0 =>
  (Copy rt w.dptr_ d w0.dptr_ d0 s.wsum.length).bind fun p =>
  some { s with weights := s.weights.set i { w with dptr_ := p } }

/-- Method `SimpleSynch::SyncAfterUpdate()`. -/
def SimpleSynch.SyncAfterUpdate {S α : Type} (rt : Runtime α)
    (s : SimpleSynch S α) : Option (SimpleSynch S α) :=
  if s.weights.length = 1 ∨ s.sync_weight = 0 then some s
  else forLoop (bcastBody rt) (s.weights.length - 1) 1 s

/-- Function `CreateSynch(type, weights, grads, devices, tag)`.  The result `none`
is the pointer `NULL`; `utils::Error` ends the call with the formatted message. -/
def CreateSynch {S α : Type} [DecidableEq S] (rt : Runtime α) (type : String)
    (weights grads : List (Tensor S α)) (devices : List Int) (tag : String) :
    Except Fault (Option (SimpleSynch S α)) :=
  if strcmp type "none" = 0 then .ok none
  else if strcmp type "simple" = 0 then
    match SimpleSynch.new rt tag weights grads devices with
    | .error e => .error e.fault
    | .ok s => .ok (some s)
  else .error (Fault.Error ("unknown syncrhonizer type " ++ type))

/-! ## Predicates used to state the properties -/

/-- A tensor handle is valid when its memory block holds exactly `MSize()` elements. -/
def Tensor.valid {S α : Type} (t : Tensor S α) : Prop :=
  t.dptr_.length = t.MSize

/-- What a tensor handle fixes apart from the content of its block. -/
def Tensor.layout {S α : Type} (t : Tensor S α) : S × Nat × Nat :=
  (t.shape_, t.MSize, t.dptr_.length)

/-- A parameter group with one device identifier per member and valid handles. -/
def ValidGroup {S α : Type} (weights grads : List (Tensor S α)) (devices : List Int) : Prop :=
  devices.length = weights.length ∧ (∀ t ∈ weights, t.valid) ∧ (∀ t ∈ grads, t.valid)

/-- State `s1` is `s` after its buffers and its flag were rewritten by code outside the
synchronizer (gradient computation, optimizer, `SetParam`): nothing is resized. -/
def SameLayout {S α : Type} (s s1 : SimpleSynch S α) : Prop :=
  s1.tag = s.tag ∧ s1.host_device = s.host_device ∧ s1.devices = s.devices ∧
  s1.wtmp.length = s.wtmp.length ∧ s1.wsum.length = s.wsum.length ∧
  s1.weights.map Tensor.layout = s.weights.map Tensor.layout ∧
  s1.grads.map Tensor.layout = s.grads.map Tensor.layout

/-- Elementwise sum of the buffers `bufs` over the indices below `n`, as the
specification words it: entry `k` is the sum of the entries `k` of all buffers. -/
def elementwiseSum {α : Type} [AddMonoid α] (n : Nat) (bufs : List (List α)) : List α :=
  (List.range n).map (fun k => (bufs.map (fun b => b.getD k 0)).sum)

/-- The group passes every assertion of the constructor: `weights` is not empty, it is
as long as `grads`, and every member has the shape and element count of `weights[0]`. -/
def ShapesAgree {S α : Type} (weights grads : List (Tensor S α)) : Prop :=
  0 < weights.length ∧ weights.length = grads.length ∧
  ∀ t ∈ weights ++ grads, ∀ w0 ∈ weights.take 1, t.shape_ = w0.shape_ ∧ t.MSize = w0.MSize

instance {S α : Type} [DecidableEq S] (weights grads : List (Tensor S α)) :
    Decidable (ShapesAgree weights grads) := by
  unfold ShapesAgree; infer_instance

instance {S α : Type} (t : Tensor S α) : Decidable t.valid := by
  unfold Tensor.valid; infer_instance

instance {S α : Type} (weights grads : List (Tensor S α)) (devices : List Int) :
    Decidable (ValidGroup weights grads devices) := by
  unfold ValidGroup; infer_instance

instance {S α : Type} [DecidableEq S] (s s1 : SimpleSynch S α) : Decidable (SameLayout s s1) := by
  unfold SameLayout; infer_instance

/-- A CPU build: no `__CUDACC__`, fresh memory reads `0`, unassigned members read `-7`. -/
def cpuRuntime : Runtime Int :=
  { cudacc := false, kDevCPU := true, cudaGetDevice := none,
    cudaDeviceEnablePeerAccess := fun _ => false, uninit := fun _ _ => 0, indet := -7 }

/-- A `1 x n` tensor without padding that holds `xs`. -/
def rowTensor (xs : List Int) : Tensor (Nat × Nat) Int :=
  { dptr_ := xs, shape_ := (1, xs.length), MSize := xs.length }

/-- Digits of a decimal number, read from the left with accumulator `acc`. -/
def readDigits : List Char → Int → Int
  | [], acc => acc
  | c :: cs, acc => if c.isDigit then readDigits cs (acc * 10 + (c.toNat - 48 : Nat)) else acc

/-- A reading of the C library `atoi` on decimal strings (blanks, a sign, digits; no
overflow).  It serves as a sample; the properties below hold for every `atoi`. -/
def decimalAtoi (v : String) : Int :=
  match v.data.dropWhile Char.isWhitespace with
  | '-' :: r => - readDigits r 0
  | '+' :: r => readDigits r 0
  | r => readDigits r 0

/-- The group the CPU build constructs from three devices with scalar buffers. -/
def scalarGroup : SimpleSynch (Nat × Nat) Int :=
  { sync_weight := 1, tag := "fc1", host_device := 0, wtmp := [0], wsum := [0],
    weights := [rowTensor [101], rowTensor [0], rowTensor [0]],
    grads := [rowTensor [1], rowTensor [2], rowTensor [3]], devices := [0, 1, 2] }

/-- The group the CPU build constructs from two devices with two-element buffers. -/
def pairGroup : SimpleSynch (Nat × Nat) Int :=
  { sync_weight := 1, tag := "fc2", host_device := 0, wtmp := [0, 0], wsum := [0, 0],
    weights := [rowTensor [5, 6], rowTensor [7, 8]],
    grads := [rowTensor [1, 5], rowTensor [2, 6]], devices := [0, 1] }

/-- The group the CPU build constructs from a single device. -/
def singleGroup : SimpleSynch (Nat × Nat) Int :=
  { sync_weight := 1, tag := "fc3", host_device := 0, wtmp := [], wsum := [],
    weights := [rowTensor [4, 5]], grads := [rowTensor [9, 9]], devices := [0] }

/-- What construction establishes and no later call changes; `n` is `weights[0].MSize()`. -/
structure Inv {S α : Type} (s : SimpleSynch S α) (n : Nat) : Prop where
  wne : s.weights ≠ []
  glen : s.grads.length = s.weights.length
  dlen : s.devices.length = s.weights.length
  wsz : ∀ t ∈ s.weights, t.dptr_.length = n
  gsz : ∀ t ∈ s.grads, t.dptr_.length = n
  tmp : 1 < s.weights.length → s.wtmp.length = n
  sum : 1 < s.weights.length → s.wsum.length = n

/-- The key of a `SetParam` call as the specification words it: the key without the
leading `<tag>:` when it begins with the tag followed by the separator `:`. -/
def bareKey (tag key : String) : String :=
  if key.data.take (tag.data.length + 1) = tag.data ++ [':'] then
    ⟨key.data.drop (tag.data.length + 1)⟩
  else key

/-- Entry `k` of the reduction as the specification words it: start from the gradient
of device 0 and add the gradient of each later device on the right, in device order.
`z` stands for an entry that a buffer does not have. -/
def leftFoldEntry {α : Type} (add : α → α → α) (z : α) (k : Nat) : List (List α) → α
  | [] => z
  | g0 :: later => later.foldl (fun acc b => add acc (b.getD k z)) (g0.getD k z)

/-- A call of one of the three methods of the synchronizer interface. -/
inductive Call where
  | SetParam (name val : String)
  | SyncBeforeUpdate
  | SyncAfterUpdate
deriving DecidableEq

/-- One call on a `SimpleSynch`. -/
def SimpleSynch.call {S α : Type} (rt : Runtime α) (add : α → α → α) (atoi : String → Int)
    (s : SimpleSynch S α) : Call → Option (SimpleSynch S α)
  | Call.SetParam name val => some (s.SetParam atoi name val)
  | Call.SyncBeforeUpdate => s.SyncBeforeUpdate rt add
  | Call.SyncAfterUpdate => s.SyncAfterUpdate rt

/-- A finite sequence of calls, each on the state the previous one left. -/
def SimpleSynch.calls {S α : Type} (rt : Runtime α) (add : α → α → α) (atoi : String → Int) :
    SimpleSynch S α → List Call → Option (SimpleSynch S α)
  | s, [] => some s
  | s, c :: cs => (s.call rt add atoi c).bind fun s1 => SimpleSynch.calls rt add atoi s1 cs

/-- A CUDA build on a device: `__CUDACC__` defined, `xpu::kDevCPU` false, the current
device is 0 and every `cudaDeviceEnablePeerAccess` call fails. -/
def gpuRuntime : Runtime Int :=
  { cudacc := true, kDevCPU := false, cudaGetDevice := some 0,
    cudaDeviceEnablePeerAccess := fun _ => false, uninit := fun _ _ => 0, indet := -7 }

/-! ## Auxiliary facts -/

theorem Copy_eq_memcpy {α : Type} (rt : Runtime α) (dst : List α) (dd : Int) (src : List α)
    (sd : Int) (size : Nat) : Copy rt dst dd src sd size = memcpy dst src size := by
  unfold Copy
  split <;> [split <;> [split <;> rfl; rfl]; rfl]

theorem memcpy_full {α : Type} (dst src : List α) (n : Nat) (hd : dst.length = n)
    (hs : src.length = n) : memcpy dst src n = some src := by
  subst hs
  simp [memcpy, hd]

theorem Copy_full {α : Type} (rt : Runtime α) (dst : List α) (dd : Int) (src : List α)
    (sd : Int) (n : Nat) (hd : dst.length = n) (hs : src.length = n) :
    Copy rt dst dd src sd n = some src := by
  rw [Copy_eq_memcpy, memcpy_full dst src n hd hs]

theorem set_length_append {β : Type} (pre : List β) (x y : β) (post : List β) :
    (pre ++ x :: post).set pre.length y = pre ++ y :: post := by
  induction pre with
  | nil => rfl
  | cons a pre ih => simp [ih]

theorem getElem?_length_append {β : Type} (pre : List β) (x : β) (post : List β) :
    (pre ++ x :: post)[pre.length]? = some x := by
  induction pre with
  | nil => simp
  | cons a pre ih => simpa using ih

theorem getElem?_of_lt {β : Type} (l : List β) (i : Nat) (h : i < l.length) :
    ∃ x, l[i]? = some x :=
  ⟨l[i], List.getElem?_eq_getElem h⟩

/-- The reduction loop adds the remaining gradients to `wsum` from left to right. -/
theorem forLoop_sumBody {S α : Type} (rt : Runtime α) (add : α → α → α) (n : Nat) :
    ∀ (mid pre : List (Tensor S α)) (s : SimpleSynch S α),
      s.grads = pre ++ mid → s.grads.length ≤ s.devices.length →
      (∀ t ∈ mid, t.dptr_.length = n) → s.wtmp.length = n → s.wsum.length = n →
      ∃ t : List α, t.length = n ∧
        forLoop (sumBody rt add) mid.length pre.length s =
          some { s with wtmp := t,
                        wsum := List.foldl (List.zipWith add) s.wsum (mid.map Tensor.dptr_) } := by
  intro mid
  induction mid with
  | nil =>
    intro pre s _ _ _ ht _
    exact ⟨s.wtmp, ht, rfl⟩
  | cons g mid ih =>
    intro pre s hg hd hsz ht hs
    have hgi : s.grads[pre.length]? = some g := by rw [hg]; exact getElem?_length_append pre g mid
    have hlt : pre.length < s.devices.length := by
      have : pre.length < s.grads.length := by rw [hg]; simp
      omega
    obtain ⟨d, hdi⟩ := getElem?_of_lt s.devices pre.length hlt
    have hgl : g.dptr_.length = n := hsz g (by simp)
    have hbody : sumBody rt add pre.length s =
        some { s with wtmp := g.dptr_, wsum := List.zipWith add s.wsum g.dptr_ } := by
      unfold sumBody
      rw [hgi, hdi]
      simp only [Option.some_bind]
      rw [ht, Copy_full rt s.wtmp s.host_device g.dptr_ d n ht hgl]
      simp [plusAssign, hs, hgl]
    obtain ⟨t, htl, hrec⟩ := ih (pre ++ [g])
      { s with wtmp := g.dptr_, wsum := List.zipWith add s.wsum g.dptr_ }
      (by simp [hg]) hd (fun t ht => hsz t (by simp [ht])) hgl (by simp [hs, hgl])
    refine ⟨t, htl, ?_⟩
    simp only [List.length_append, List.length_singleton] at hrec
    simp only [forLoop, hbody, Option.some_bind]
    simpa using hrec

/-- The copy-back loop writes `wsum` into every remaining gradient buffer. -/
theorem forLoop_backBody {S α : Type} (rt : Runtime α) (n : Nat) :
    ∀ (mid pre : List (Tensor S α)) (s : SimpleSynch S α),
      s.grads = pre ++ mid → s.grads.length ≤ s.devices.length →
      (∀ t ∈ mid, t.dptr_.length = n) → s.wsum.length = n →
      forLoop (backBody rt) mid.length pre.length s =
        some { s with grads := pre ++ mid.map (fun g => { g with dptr_ := s.wsum }) } := by
  intro mid
  induction mid with
  | nil =>
    intro pre s hg _ _ _
    simp [forLoop, ← hg]
  | cons g mid ih =>
    intro pre s hg hd hsz hs
    have hgi : s.grads[pre.length]? = some g := by rw [hg]; exact getElem?_length_append pre g mid
    have hlt : pre.length < s.devices.length := by
      have : pre.length < s.grads.length := by rw [hg]; simp
      omega
    obtain ⟨d, hdi⟩ := getElem?_of_lt s.devices pre.length hlt
    have hgl : g.dptr_.length = n := hsz g (by simp)
    have hbody : backBody rt pre.length s =
        some { s with grads := pre ++ { g with dptr_ := s.wsum } :: mid } := by
      unfold backBody
      rw [hgi, hdi]
      simp only [Option.some_bind]
      rw [hs, Copy_full rt g.dptr_ d s.wsum s.host_device n hgl hs]
      simp only [Option.some_bind]
      rw [hg, set_length_append]
    have hrec := ih (pre ++ [{ g with dptr_ := s.wsum }])
      { s with grads := pre ++ { g with dptr_ := s.wsum } :: mid }
      (by simp) (by simpa [hg] using hd) (fun t ht => hsz t (by simp [ht])) hs
    simp only [List.length_append, List.length_singleton] at hrec
    simp only [forLoop, hbody, Option.some_bind]
    simpa using hrec

/-- The broadcast loop writes the block of `weights[0]` into every later weight buffer. -/
theorem forLoop_bcastBody {S α : Type} (rt : Runtime α) (n : Nat) (w0 : Tensor S α) :
    ∀ (mid pre : List (Tensor S α)) (s : SimpleSynch S α),
      s.weights = w0 :: pre ++ mid → s.weights.length ≤ s.devices.length →
      (∀ t ∈ mid, t.dptr_.length = n) → w0.dptr_.length = n → s.wsum.length = n →
      forLoop (bcastBody rt) mid.length (pre.length + 1) s =
        some { s with weights := w0 :: pre ++ mid.map (fun w => { w with dptr_ := w0.dptr_ }) } := by
  intro mid
  induction mid with
  | nil =>
    intro pre s hw _ _ _ _
    simp [forLoop, ← hw]
  | cons w mid ih =>
    intro pre s hw hd hsz h0 hs
    have hwi : s.weights[(pre.length + 1)]? = some w := by
      rw [hw]; simpa using getElem?_length_append pre w mid
    have hw0 : s.weights[0]? = some w0 := by rw [hw]; simp
    have hlt : pre.length + 1 < s.devices.length := by
      have : pre.length + 1 < s.weights.length := by rw [hw]; simp
      omega
    obtain ⟨d, hdi⟩ := getElem?_of_lt s.devices (pre.length + 1) hlt
    obtain ⟨d0, hd0⟩ := getElem?_of_lt s.devices 0 (by omega)
    have hwl : w.dptr_.length = n := hsz w (by simp)
    have hbody : bcastBody rt (pre.length + 1) s =
        some { s with weights := w0 :: pre ++ { w with dptr_ := w0.dptr_ } :: mid } := by
      unfold bcastBody
      rw [hwi, hdi, hw0, hd0]
      simp only [Option.some_bind]
      rw [hs, Copy_full rt w.dptr_ d w0.dptr_ d0 n hwl h0]
      simp only [Option.some_bind]
      rw [hw]
      have hset := set_length_append (w0 :: pre) w { w with dptr_ := w0.dptr_ } mid
      simp only [List.length_cons, List.cons_append] at hset
      simp only [List.cons_append, hset]
    have hrec := ih (pre ++ [{ w with dptr_ := w0.dptr_ }])
      { s with weights := w0 :: pre ++ { w with dptr_ := w0.dptr_ } :: mid }
      (by simp) (by simpa [hw] using hd) (fun t ht => hsz t (by simp [ht])) h0 hs
    simp only [List.length_append, List.length_singleton] at hrec
    simp only [forLoop, hbody, Option.some_bind]
    simpa using hrec

/-- A finished `cudaSetup` changes nothing but `host_device`. -/
theorem cudaSetup_ok {S α : Type} (rt : Runtime α) (self self1 : SimpleSynch S α)
    (h : cudaSetup rt self = .ok self1) : ∃ d, self1 = { self with host_device := d } := by
  unfold cudaSetup at h
  by_cases hc : rt.cudacc = true
  · simp only [hc, if_true] at h
    by_cases hk : rt.kDevCPU = true
    · simp only [hk, Bool.not_true, Bool.false_eq_true, if_false] at h
      cases hp : enablePeers rt self.host_device self.devices self.grads.length with
      | none => simp [hp] at h
      | some l =>
        simp only [hp] at h
        injection h with h
        exact ⟨self.host_device, h.symm⟩
    · simp only [hk, Bool.not_eq_true] at h
      cases hg : rt.cudaGetDevice with
      | none => simp [hg] at h
      | some d =>
        simp only [hg] at h
        cases hp : enablePeers rt d self.devices self.grads.length with
        | none => simp [hp] at h
        | some l =>
          simp [hp] at h
          exact ⟨d, h.symm⟩
  · simp only [hc, Bool.false_eq_true, if_false] at h
    injection h with h
    exact ⟨self.host_device, h.symm⟩

/-- What a finished constructor has checked and what it returns. -/
theorem new_ok {S α : Type} [DecidableEq S] (rt : Runtime α) (tag : String)
    (weights grads : List (Tensor S α)) (devices : List Int) (s : SimpleSynch S α)
    (h : SimpleSynch.new rt tag weights grads devices = .ok s) :
    ∃ w0 rest d, weights = w0 :: rest ∧ weights.length = grads.length ∧
      (∀ t ∈ rest, t.shape_ = w0.shape_ ∧ t.MSize = w0.MSize) ∧
      (∀ t ∈ grads, t.shape_ = w0.shape_ ∧ t.MSize = w0.MSize) ∧
      s = { sync_weight := 1, tag := tag, host_device := d,
            wtmp := if weights.length > 1 then Resize rt 0 w0.MSize else [],
            wsum := if weights.length > 1 then Resize rt 1 w0.MSize else [],
            weights := weights, grads := grads, devices := devices } := by
  unfold SimpleSynch.new at h
  cases weights with
  | nil => cases h
  | cons w0 rest =>
    dsimp only at h
    split at h
    · cases h
    · rename_i h1
      split at h
      · cases h
      · rename_i h2
        split at h
        · cases h
        · rename_i h3
          split at h
          · cases h
          · rename_i self1 hcs
            obtain ⟨d, hd⟩ := cudaSetup_ok rt _ _ hcs
            subst hd
            refine ⟨w0, rest, d, rfl, by simpa using h1, ?_, ?_, ?_⟩
            · intro t ht
              have h2b : rest.all (shapeOk w0) = true := by simpa using h2
              have := (List.all_eq_true.mp h2b) t ht
              simpa [shapeOk] using this
            · intro t ht
              have h3b : grads.all (shapeOk w0) = true := by simpa using h3
              have := (List.all_eq_true.mp h3b) t ht
              simpa [shapeOk] using this
            · injection h with h
              rw [← h]
              by_cases hl : (w0 :: rest).length > 1
              · simp only [hl, if_true]
              · simp only [hl, if_false]

theorem length_Resize {α : Type} (rt : Runtime α) (k n : Nat) : (Resize rt k n).length = n := by
  simp [Resize]

/-- The constructor establishes the invariant on a valid group. -/
theorem Inv_new {S α : Type} [DecidableEq S] (rt : Runtime α) (tag : String)
    (weights grads : List (Tensor S α)) (devices : List Int) (s : SimpleSynch S α)
    (h : SimpleSynch.new rt tag weights grads devices = .ok s)
    (hv : ValidGroup weights grads devices) : ∃ n, Inv s n := by
  obtain ⟨w0, rest, d, hw, hlen, hws, hgs, hs⟩ := new_ok rt tag weights grads devices s h
  obtain ⟨hdev, hvw, hvg⟩ := hv
  refine ⟨w0.MSize, ?_⟩
  subst hs
  constructor
  · simp [hw]
  · exact hlen.symm
  · exact hdev
  · intro t ht
    have ht2 : t ∈ w0 :: rest := by simpa [hw] using ht
    have hval : t.dptr_.length = t.MSize := hvw t ht
    rcases List.mem_cons.mp ht2 with h0 | hr
    · rw [hval, h0]
    · rw [hval, (hws t hr).2]
  · intro t ht
    have hval : t.dptr_.length = t.MSize := hvg t ht
    rw [hval, (hgs t ht).2]
  · intro h1
    have h1b : weights.length > 1 := h1
    simp [h1b, length_Resize]
  · intro h1
    have h1b : weights.length > 1 := h1
    simp [h1b, length_Resize]

theorem length_eq_of_map_layout {S α : Type} (n : Nat) :
    ∀ (l l1 : List (Tensor S α)), l1.map Tensor.layout = l.map Tensor.layout →
      (∀ t ∈ l, t.dptr_.length = n) → ∀ t ∈ l1, t.dptr_.length = n := by
  intro l
  induction l with
  | nil =>
    intro l1 h _ t ht
    have : l1 = [] := by simpa using h
    simp [this] at ht
  | cons a l ih =>
    intro l1 h hl t ht
    cases l1 with
    | nil => simp at ht
    | cons b l1 =>
      simp only [List.map_cons, List.cons.injEq] at h
      rcases List.mem_cons.mp ht with hb | hr
      · have hba : b.dptr_.length = a.dptr_.length := by
          have := congrArg (fun p => p.2.2) h.1
          simpa [Tensor.layout] using this
        rw [hb, hba]
        exact hl a (by simp)
      · exact ih l1 h.2 (fun t ht => hl t (by simp [ht])) t hr

/-- Rewriting buffers and flag without resizing keeps the invariant. -/
theorem Inv_sameLayout {S α : Type} (s s1 : SimpleSynch S α) (n : Nat) (hi : Inv s n)
    (hl : SameLayout s s1) : Inv s1 n := by
  obtain ⟨_, _, hdev, htmp, hsum, hw, hg⟩ := hl
  have hwl : s1.weights.length = s.weights.length := by
    simpa using congrArg List.length hw
  have hgl : s1.grads.length = s.grads.length := by
    simpa using congrArg List.length hg
  constructor
  · intro h0
    apply hi.wne
    apply List.eq_nil_of_length_eq_zero
    rw [← hwl, h0]
    rfl
  · rw [hgl, hwl, hi.glen]
  · rw [hdev, hwl, hi.dlen]
  · exact length_eq_of_map_layout n s.weights s1.weights hw hi.wsz
  · exact length_eq_of_map_layout n s.grads s1.grads hg hi.gsz
  · intro h1
    rw [htmp]
    exact hi.tmp (by omega)
  · intro h1
    rw [hsum]
    exact hi.sum (by omega)

/-- Closed form of `SyncBeforeUpdate` on a group of at least two members. -/
theorem SyncBeforeUpdate_eq {S α : Type} (rt : Runtime α) (add : α → α → α)
    (s : SimpleSynch S α) (n : Nat) (hi : Inv s n) (hN : 2 ≤ s.weights.length) :
    ∃ g0 rest t, s.grads = g0 :: rest ∧ t.length = n ∧
      SimpleSynch.SyncBeforeUpdate rt add s =
        some { s with
          wtmp := t,
          wsum := List.foldl (List.zipWith add) g0.dptr_ (rest.map Tensor.dptr_),
          grads := s.grads.map (fun g =>
            { g with dptr_ := List.foldl (List.zipWith add) g0.dptr_ (rest.map Tensor.dptr_) }) } := by
  have hgl := hi.glen
  have hdl := hi.dlen
  cases hg : s.grads with
  | nil => rw [hg] at hgl; simp at hgl; omega
  | cons g0 rest =>
    have hg0 : s.grads[0]? = some g0 := by rw [hg]; simp
    obtain ⟨d0, hd0⟩ := getElem?_of_lt s.devices 0 (by omega)
    have hg0l : g0.dptr_.length = n := hi.gsz g0 (by simp [hg])
    have hsum := hi.sum (by omega)
    have htmp := hi.tmp (by omega)
    have hrl : ∀ t ∈ rest, t.dptr_.length = n := fun t ht => hi.gsz t (by simp [hg, ht])
    obtain ⟨t, htl, hloop⟩ := forLoop_sumBody rt add n rest [g0] { s with wsum := g0.dptr_ }
      (by simp [hg]) (by simp; omega) hrl htmp hg0l
    have hlen : s.grads.length - 1 = rest.length := by simp [hg]
    have hfl : (List.foldl (List.zipWith add) g0.dptr_ (rest.map Tensor.dptr_)).length = n := by
      have key : ∀ (bs : List (Tensor S α)) (a : List α), a.length = n →
          (∀ b ∈ bs, b.dptr_.length = n) →
          (List.foldl (List.zipWith add) a (bs.map Tensor.dptr_)).length = n := by
        intro bs
        induction bs with
        | nil => intro a ha _; simpa using ha
        | cons b bs ih =>
          intro a ha hb
          simp only [List.map_cons, List.foldl_cons]
          apply ih
          · simp [ha, hb b (by simp)]
          · intro c hc; exact hb c (by simp [hc])
      exact key rest g0.dptr_ hg0l hrl
    have hback := forLoop_backBody rt n (g0 :: rest) []
      { s with wtmp := t, wsum := List.foldl (List.zipWith add) g0.dptr_ (rest.map Tensor.dptr_) }
      (by simp [hg]) (by simp; omega)
      (fun t ht => hi.gsz t (by rw [hg]; exact ht)) hfl
    refine ⟨g0, rest, t, rfl, htl, ?_⟩
    unfold SimpleSynch.SyncBeforeUpdate
    have hne : ¬ s.weights.length = 1 := by omega
    rw [if_neg hne, hg0, hd0]
    simp only [Option.some_bind]
    rw [hsum, Copy_full rt s.wsum s.host_device g0.dptr_ d0 n hsum hg0l]
    simp only [Option.some_bind]
    rw [hlen]
    simp only [List.length_singleton] at hloop
    rw [hloop]
    simp only [Option.some_bind]
    rw [hg]
    rw [hg] at hback
    simpa using hback

/-- Closed form of `SyncAfterUpdate` when the broadcast runs. -/
theorem SyncAfterUpdate_eq {S α : Type} (rt : Runtime α) (s : SimpleSynch S α) (n : Nat)
    (hi : Inv s n) (hN : 2 ≤ s.weights.length) (hf : s.sync_weight ≠ 0) :
    ∃ w0 rest, s.weights = w0 :: rest ∧
      SimpleSynch.SyncAfterUpdate rt s =
        some { s with weights := w0 :: rest.map (fun w => { w with dptr_ := w0.dptr_ }) } := by
  cases hw : s.weights with
  | nil => rw [hw] at hN; simp at hN
  | cons w0 rest =>
    have hdl := hi.dlen
    have hloop := forLoop_bcastBody rt n w0 rest [] s (by simp [hw]) (by omega)
      (fun t ht => hi.wsz t (by simp [hw, ht])) (hi.wsz w0 (by simp [hw])) (hi.sum (by omega))
    refine ⟨w0, rest, rfl, ?_⟩
    unfold SimpleSynch.SyncAfterUpdate
    have hne : ¬ (s.weights.length = 1 ∨ s.sync_weight = 0) := by
      intro h
      rcases h with h | h
      · omega
      · exact hf h
    rw [if_neg hne]
    have hlen : s.weights.length - 1 = rest.length := by simp [hw]
    rw [hlen]
    simp only [List.length_nil, Nat.zero_add, List.nil_append] at hloop
    rw [hloop]
    simp

theorem getD_zipWith_add {α : Type} [AddMonoid α] (a b : List α) (k : Nat)
    (ha : k < a.length) (hb : k < b.length) :
    (List.zipWith (· + ·) a b).getD k 0 = a.getD k 0 + b.getD k 0 := by
  simp [List.getD_eq_getElem?_getD, List.getElem?_eq_getElem, ha, hb, List.getElem?_zipWith]

/-- Folding `wsum += wtmp` over buffers of one length gives their elementwise sum. -/
theorem foldl_zipWith_eq_elementwiseSum {α : Type} [AddMonoid α] (n : Nat) :
    ∀ (bs : List (List α)) (a : List α), a.length = n → (∀ b ∈ bs, b.length = n) →
      List.foldl (List.zipWith (· + ·)) a bs = elementwiseSum n (a :: bs) := by
  intro bs
  induction bs with
  | nil =>
    intro a ha _
    apply List.ext_getElem
    · simp [elementwiseSum, ha]
    · intro k h1 h2
      have hk : k < a.length := by simpa using h1
      simp [elementwiseSum, List.getD_eq_getElem?_getD, List.getElem?_eq_getElem hk]
  | cons b bs ih =>
    intro a ha hb
    have hbl : b.length = n := hb b (by simp)
    rw [List.foldl_cons, ih (List.zipWith (· + ·) a b) (by simp [ha, hbl])
      (fun c hc => hb c (by simp [hc]))]
    unfold elementwiseSum
    apply List.map_congr_left
    intro k hk
    have hkn : k < n := List.mem_range.mp hk
    simp only [List.map_cons, List.sum_cons]
    rw [getD_zipWith_add a b k (by omega) (by omega), add_assoc]

/-! ## Facts shared by the properties -/

theorem SetParam_cases {S α : Type} (atoi : String → Int) (s : SimpleSynch S α)
    (name val : String) :
    s.SetParam atoi name val = s ∨
      s.SetParam atoi name val = { s with sync_weight := atoi val } := by
  unfold SimpleSynch.SetParam
  dsimp only
  generalize (if strncmp name s.tag s.tag.length = 0 then
      if name.data[s.tag.length]? = some ':' then
        (⟨name.data.drop (s.tag.length + 1)⟩ : String)
      else name
    else name) = name1
  by_cases h : strcmp name1 "sync_weight" = 0
  · right; rw [if_pos h]
  · left; rw [if_neg h]

theorem SyncBeforeUpdate_single {S α : Type} (rt : Runtime α) (add : α → α → α)
    (s : SimpleSynch S α) (h : s.weights.length = 1) :
    s.SyncBeforeUpdate rt add = some s := by
  simp [SimpleSynch.SyncBeforeUpdate, h]

theorem SyncAfterUpdate_skip {S α : Type} (rt : Runtime α) (s : SimpleSynch S α)
    (h : s.weights.length = 1 ∨ s.sync_weight = 0) : s.SyncAfterUpdate rt = some s := by
  simp [SimpleSynch.SyncAfterUpdate, h]

theorem length_weights_of_sameLayout {S α : Type} (s s1 : SimpleSynch S α)
    (hl : SameLayout s s1) : s1.weights.length = s.weights.length := by
  simpa using congrArg List.length hl.2.2.2.2.2.1

theorem length_elementwiseSum {α : Type} [AddMonoid α] (n : Nat) (bufs : List (List α)) :
    (elementwiseSum n bufs).length = n := by
  simp [elementwiseSum]

theorem enablePeers_isSome {α : Type} (rt : Runtime α) (host : Int) (devices : List Int) :
    ∀ (n i : Nat) (codes : List Bool), i + n ≤ devices.length →
      ∃ l, forLoop (fun i codes =>
        devices[i]?.bind fun d =>
          if d ≠ host then some (codes ++ [rt.cudaDeviceEnablePeerAccess d])
          else some codes) n i codes = some l := by
  intro n
  induction n with
  | zero => intro i codes _; exact ⟨codes, rfl⟩
  | succ n ih =>
    intro i codes h
    obtain ⟨d, hd⟩ := getElem?_of_lt devices i (by omega)
    simp only [forLoop, hd, Option.some_bind]
    by_cases hh : d ≠ host
    · rw [if_pos hh]
      exact ih (i + 1) _ (by omega)
    · rw [if_neg hh]
      exact ih (i + 1) _ (by omega)

/-- The constructor finishes on a group that passes its assertions when the device
runtime can name the current device and every member has a device identifier. -/
theorem new_succeeds {S α : Type} [DecidableEq S] (rt : Runtime α) (tag : String)
    (weights grads : List (Tensor S α)) (devices : List Int)
    (hs : ShapesAgree weights grads)
    (hdev : grads.length ≤ devices.length)
    (hrt : rt.cudacc = true → rt.kDevCPU = false → rt.cudaGetDevice ≠ none) :
    ∃ s, SimpleSynch.new rt tag weights grads devices = .ok s := by
  obtain ⟨hne, hlen, hall⟩ := hs
  cases weights with
  | nil => simp at hne
  | cons w0 rest =>
    have hrest : rest.all (shapeOk w0) = true := by
      apply List.all_eq_true.mpr
      intro t ht
      have := hall t (by simp [ht]) w0 (by simp)
      simp [shapeOk, this.1, this.2]
    have hgrads : grads.all (shapeOk w0) = true := by
      apply List.all_eq_true.mpr
      intro t ht
      have := hall t (by simp [ht]) w0 (by simp)
      simp [shapeOk, this.1, this.2]
    have hcs : ∀ self : SimpleSynch S α, self.devices = devices → self.grads = grads →
        ∃ self1, cudaSetup rt self = .ok self1 := by
      intro self hd hg
      unfold cudaSetup
      by_cases hc : rt.cudacc = true
      · simp only [hc, if_true]
        by_cases hk : rt.kDevCPU = true
        · simp only [hk, Bool.not_true, Bool.false_eq_true, if_false]
          obtain ⟨l, hl⟩ := enablePeers_isSome rt self.host_device self.devices
            self.grads.length 0 [] (by rw [hd, hg]; omega)
          unfold enablePeers
          rw [hl]
          exact ⟨_, rfl⟩
        · have hk2 : rt.kDevCPU = false := by simpa using hk
          cases hgd : rt.cudaGetDevice with
          | none => exact absurd hgd (hrt hc hk2)
          | some d =>
            simp only [hk2, Bool.not_false, if_true]
            obtain ⟨l, hl⟩ := enablePeers_isSome rt d self.devices
              self.grads.length 0 [] (by rw [hd, hg]; omega)
            unfold enablePeers
            rw [hl]
            exact ⟨_, rfl⟩
      · simp only [hc, Bool.false_eq_true, if_false]
        exact ⟨_, rfl⟩
    obtain ⟨self1, h1⟩ := hcs
      { sync_weight := rt.indet, tag := tag, host_device := 0, wtmp := [], wsum := [],
        weights := w0 :: rest, grads := grads, devices := devices } rfl rfl
    unfold SimpleSynch.new
    dsimp only
    rw [if_neg (by simpa using hlen), hrest, hgrads]
    simp only [Bool.not_true, Bool.false_eq_true, if_false]
    rw [h1]
    exact ⟨_, rfl⟩

theorem strcmp_eq_zero (a b : String) : strcmp a b = 0 ↔ a = b := by
  unfold strcmp
  by_cases h : a = b <;> simp [h]

theorem SetParam_sync_weight {S α : Type} (atoi : String → Int) (s : SimpleSynch S α)
    (v : String) : s.SetParam atoi "sync_weight" v = { s with sync_weight := atoi v } := by
  have hcolon : ∀ k : Nat, ¬ ("sync_weight".data[k]? = some ':') := by
    intro k h
    have hm : ':' ∈ "sync_weight".data := List.mem_iff_getElem?.mpr ⟨k, h⟩
    exact absurd hm (by decide)
  unfold SimpleSynch.SetParam
  dsimp only
  rw [if_neg (hcolon s.tag.length)]
  simp [strcmp]

theorem take_succ_eq_append_singleton {β : Type} (l t : List β) (c : β) :
    l.take (t.length + 1) = t ++ [c] ↔ l.take t.length = t ∧ l[t.length]? = some c := by
  rw [List.take_succ]
  constructor
  · intro h
    cases hx : l[t.length]? with
    | none =>
      rw [hx] at h
      have hlen := congrArg List.length h
      simp at hlen
      omega
    | some x =>
      rw [hx] at h
      have h2 := List.append_inj' h rfl
      have hxc : x = c := by simpa using h2.2
      exact ⟨h2.1, by rw [hxc]⟩
  · rintro ⟨h1, h2⟩
    rw [h1, h2]
    rfl

/-- The key that `SetParam` compares with "sync_weight" is the bare key. -/
theorem SetParam_eq_bareKey {S α : Type} (atoi : String → Int) (s : SimpleSynch S α)
    (name val : String) :
    s.SetParam atoi name val =
      if bareKey s.tag name = "sync_weight" then { s with sync_weight := atoi val } else s := by
  have key := take_succ_eq_append_singleton name.data s.tag.data ':'
  have c1 : strncmp name s.tag s.tag.length = 0 ↔
      name.data.take s.tag.data.length = s.tag.data := by
    unfold strncmp
    show (if name.data.take s.tag.data.length = s.tag.data.take s.tag.data.length
      then (0 : Int) else 1) = 0 ↔ _
    rw [List.take_length]
    by_cases h : name.data.take s.tag.data.length = s.tag.data
    · rw [if_pos h]
      exact ⟨fun _ => h, fun _ => rfl⟩
    · rw [if_neg h]
      exact ⟨fun h1 => absurd h1 (by decide), fun h1 => absurd h1 h⟩
  have hkey : (if strncmp name s.tag s.tag.length = 0 then
      if name.data[s.tag.length]? = some ':' then
        (⟨name.data.drop (s.tag.length + 1)⟩ : String)
      else name
    else name) = bareKey s.tag name := by
    unfold bareKey
    by_cases hc : name.data.take (s.tag.data.length + 1) = s.tag.data ++ [':']
    · obtain ⟨h1, h2⟩ := key.mp hc
      rw [if_pos hc, if_pos (c1.mpr h1)]
      exact if_pos h2
    · rw [if_neg hc]
      by_cases h1 : strncmp name s.tag s.tag.length = 0
      · rw [if_pos h1]
        have h2 : ¬ name.data[s.tag.data.length]? = some ':' :=
          fun h2 => hc (key.mpr ⟨c1.mp h1, h2⟩)
        exact if_neg h2
      · exact if_neg h1
  unfold SimpleSynch.SetParam
  dsimp only
  rw [hkey]
  simp only [strcmp_eq_zero]

theorem length_foldl_zipWith {α : Type} (add : α → α → α) (n : Nat) :
    ∀ (bs : List (List α)) (a : List α), a.length = n → (∀ b ∈ bs, b.length = n) →
      (List.foldl (List.zipWith add) a bs).length = n := by
  intro bs
  induction bs with
  | nil => intro a ha _; simpa using ha
  | cons b bs ih =>
    intro a ha hb
    rw [List.foldl_cons]
    apply ih
    · simp [ha, hb b (by simp)]
    · intro c hc; exact hb c (by simp [hc])

/-- Entry `k` of the folded buffers is the left fold of the entries `k`. -/
theorem getD_foldl_zipWith {α : Type} (add : α → α → α) (z : α) (n k : Nat) (hk : k < n) :
    ∀ (bs : List (List α)) (a : List α), a.length = n → (∀ b ∈ bs, b.length = n) →
      (List.foldl (List.zipWith add) a bs).getD k z =
        bs.foldl (fun acc b => add acc (b.getD k z)) (a.getD k z) := by
  intro bs
  induction bs with
  | nil => intro a _ _; rfl
  | cons b bs ih =>
    intro a ha hb
    have hbl : b.length = n := hb b (by simp)
    rw [List.foldl_cons, List.foldl_cons,
      ih (List.zipWith add a b) (by simp [ha, hbl]) (fun c hc => hb c (by simp [hc]))]
    congr 1
    simp [List.getD_eq_getElem?_getD, List.getElem?_eq_getElem, ha, hbl, hk,
      List.getElem?_zipWith]

theorem SameLayout_refl {S α : Type} (s : SimpleSynch S α) : SameLayout s s :=
  ⟨rfl, rfl, rfl, rfl, rfl, rfl, rfl⟩

theorem SameLayout_trans {S α : Type} (s s1 s2 : SimpleSynch S α) (h1 : SameLayout s s1)
    (h2 : SameLayout s1 s2) : SameLayout s s2 := by
  obtain ⟨a1, a2, a3, a4, a5, a6, a7⟩ := h1
  obtain ⟨b1, b2, b3, b4, b5, b6, b7⟩ := h2
  exact ⟨b1.trans a1, b2.trans a2, b3.trans a3, b4.trans a4, b5.trans a5, b6.trans a6,
    b7.trans a7⟩

theorem SameLayout_SetParam {S α : Type} (atoi : String → Int) (s : SimpleSynch S α)
    (name val : String) : SameLayout s (s.SetParam atoi name val) := by
  rcases SetParam_cases atoi s name val with h | h <;> rw [h] <;>
    exact ⟨rfl, rfl, rfl, rfl, rfl, rfl, rfl⟩

theorem map_layout_overwrite {S α : Type} (n : Nat) (buf : List α) (hb : buf.length = n)
    (l : List (Tensor S α)) (hl : ∀ t ∈ l, t.dptr_.length = n) :
    (l.map (fun g => ({ g with dptr_ := buf } : Tensor S α))).map Tensor.layout =
      l.map Tensor.layout := by
  rw [List.map_map]
  apply List.map_congr_left
  intro g hg
  simp [Tensor.layout, hb, hl g hg]

/-- What `SyncBeforeUpdate` leaves alone, on a group of any size. -/
theorem SyncBeforeUpdate_frame {S α : Type} (rt : Runtime α) (add : α → α → α)
    (s : SimpleSynch S α) (n : Nat) (hi : Inv s n) :
    ∃ s1, s.SyncBeforeUpdate rt add = some s1 ∧ SameLayout s s1 ∧
      s1.weights = s.weights ∧ s1.sync_weight = s.sync_weight := by
  by_cases hN : 2 ≤ s.weights.length
  · obtain ⟨g0, rest, t, hg, htl, heq⟩ := SyncBeforeUpdate_eq rt add s n hi hN
    have hfl : (List.foldl (List.zipWith add) g0.dptr_ (rest.map Tensor.dptr_)).length = n := by
      apply length_foldl_zipWith add n
      · exact hi.gsz g0 (by simp [hg])
      · intro b hb
        obtain ⟨x, hx, rfl⟩ := List.mem_map.mp hb
        exact hi.gsz x (by simp [hg, hx])
    refine ⟨_, heq, ⟨rfl, rfl, rfl, ?_, ?_, rfl, ?_⟩, rfl, rfl⟩
    · show t.length = s.wtmp.length
      rw [htl, hi.tmp (by omega)]
    · show (List.foldl (List.zipWith add) g0.dptr_ (rest.map Tensor.dptr_)).length =
        s.wsum.length
      rw [hfl, hi.sum (by omega)]
    · exact map_layout_overwrite n _ hfl s.grads hi.gsz
  · have h1 : s.weights.length = 1 := by
      have := List.length_pos.mpr hi.wne
      omega
    exact ⟨s, SyncBeforeUpdate_single rt add s h1, SameLayout_refl s, rfl, rfl⟩

/-- What `SyncAfterUpdate` leaves alone, on a group of any size and for any flag. -/
theorem SyncAfterUpdate_frame {S α : Type} (rt : Runtime α) (s : SimpleSynch S α) (n : Nat)
    (hi : Inv s n) :
    ∃ s1, s.SyncAfterUpdate rt = some s1 ∧ SameLayout s s1 ∧
      s1.grads = s.grads ∧ s1.sync_weight = s.sync_weight ∧ s1.weights[0]? = s.weights[0]? ∧
      s1.wtmp = s.wtmp ∧ s1.wsum = s.wsum := by
  by_cases hskip : s.weights.length = 1 ∨ s.sync_weight = 0
  · exact ⟨s, SyncAfterUpdate_skip rt s hskip, SameLayout_refl s, rfl, rfl, rfl, rfl, rfl⟩
  · have hN : 2 ≤ s.weights.length := by
      have := List.length_pos.mpr hi.wne
      have : ¬ s.weights.length = 1 := fun h => hskip (Or.inl h)
      omega
    have hf : s.sync_weight ≠ 0 := fun h => hskip (Or.inr h)
    obtain ⟨w0, rest, hw, heq⟩ := SyncAfterUpdate_eq rt s n hi hN hf
    have h0 : w0.dptr_.length = n := hi.wsz w0 (by simp [hw])
    refine ⟨_, heq, ⟨rfl, rfl, rfl, rfl, rfl, ?_, rfl⟩, rfl, rfl, by simp [hw], rfl, rfl⟩
    show (w0 :: rest.map (fun w => ({ w with dptr_ := w0.dptr_ } : Tensor S α))).map
      Tensor.layout = s.weights.map Tensor.layout
    rw [hw, List.map_cons, List.map_cons,
      map_layout_overwrite n w0.dptr_ h0 rest (fun t ht => hi.wsz t (by simp [hw, ht]))]

/-- Closed form of `SyncBeforeUpdate` for exact addition on a group of two or more. -/
theorem SyncBeforeUpdate_sum_eq {S α : Type} [AddMonoid α] (rt : Runtime α)
    (s : SimpleSynch S α) (n : Nat) (hi : Inv s n) (hN : 2 ≤ s.weights.length) :
    ∃ t, t.length = n ∧
      s.SyncBeforeUpdate rt (· + ·) =
        some { s with
          wtmp := t,
          wsum := elementwiseSum n (s.grads.map Tensor.dptr_),
          grads := s.grads.map (fun g =>
            { g with dptr_ := elementwiseSum n (s.grads.map Tensor.dptr_) }) } := by
  obtain ⟨g0, rest, t, hg, htl, heq⟩ := SyncBeforeUpdate_eq rt (· + ·) s n hi hN
  have hsum : List.foldl (List.zipWith (· + ·)) g0.dptr_ (rest.map Tensor.dptr_) =
      elementwiseSum n (s.grads.map Tensor.dptr_) := by
    rw [hg, List.map_cons]
    apply foldl_zipWith_eq_elementwiseSum n
    · exact hi.gsz g0 (by simp [hg])
    · intro b hb
      obtain ⟨x, hx, rfl⟩ := List.mem_map.mp hb
      exact hi.gsz x (by simp [hg, hx])
  rw [hsum] at heq
  exact ⟨t, htl, heq⟩

/-- The status that `cudaDeviceEnablePeerAccess` returns does not decide whether the
loop of the constructor finishes. -/
theorem enablePeers_isSome_congr (host : Int) (devices : List Int)
    (f f1 : Int → Bool) :
    ∀ (n i : Nat) (codes codes1 : List Bool),
      (forLoop (fun i codes =>
        devices[i]?.bind fun d =>
          if d ≠ host then some (codes ++ [f d]) else some codes) n i codes).isSome =
      (forLoop (fun i codes =>
        devices[i]?.bind fun d =>
          if d ≠ host then some (codes ++ [f1 d]) else some codes) n i codes1).isSome := by
  intro n
  induction n with
  | zero => intro i codes codes1; rfl
  | succ n ih =>
    intro i codes codes1
    simp only [forLoop]
    cases hd : devices[i]? with
    | none => rfl
    | some d =>
      simp only [Option.some_bind]
      by_cases hh : d ≠ host
      · rw [if_pos hh, if_pos hh]
        simp only [Option.some_bind]
        exact ih (i + 1) _ _
      · rw [if_neg hh, if_neg hh]
        simp only [Option.some_bind]
        exact ih (i + 1) _ _

/-- The loop of the constructor asks for peer access exactly for the devices that
differ from the host device, in device order. -/
theorem enablePeers_requests {α : Type} (rt : Runtime α) (host : Int) :
    ∀ (mid pre : List Int) (codes : List Bool),
      forLoop (fun i codes =>
        (pre ++ mid)[i]?.bind fun d =>
          if d ≠ host then some (codes ++ [rt.cudaDeviceEnablePeerAccess d])
          else some codes) mid.length pre.length codes =
        some (codes ++ (mid.filter (fun d => decide (d ≠ host))).map
          rt.cudaDeviceEnablePeerAccess) := by
  intro mid
  induction mid with
  | nil => intro pre codes; simp [forLoop]
  | cons d mid ih =>
    intro pre codes
    have hd : (pre ++ d :: mid)[pre.length]? = some d := getElem?_length_append pre d mid
    have hrec := ih (pre ++ [d])
    simp only [List.append_assoc, List.singleton_append, List.length_append,
      List.length_singleton] at hrec
    simp only [List.length_cons, forLoop, hd, Option.some_bind]
    by_cases hh : d ≠ host
    · rw [if_pos hh]
      simp only [Option.some_bind]
      rw [hrec]
      simp [hh]
    · rw [if_neg hh]
      simp only [Option.some_bind]
      rw [hrec]
      simp [hh]

/-- The status that `cudaDeviceEnablePeerAccess` returns does not change `cudaSetup`. -/
theorem cudaSetup_congr {S α : Type} (rt : Runtime α) (f : Int → Bool)
    (self : SimpleSynch S α) :
    cudaSetup { rt with cudaDeviceEnablePeerAccess := f } self = cudaSetup rt self := by
  have hpeers : ∀ (h : Int),
      (enablePeers { rt with cudaDeviceEnablePeerAccess := f } h self.devices
        self.grads.length).isSome =
      (enablePeers rt h self.devices self.grads.length).isSome := by
    intro h
    unfold enablePeers
    exact enablePeers_isSome_congr h self.devices f rt.cudaDeviceEnablePeerAccess
      self.grads.length 0 [] []
  have hmatch : ∀ (h : Int) (st : SimpleSynch S α),
      (match enablePeers { rt with cudaDeviceEnablePeerAccess := f } h self.devices
          self.grads.length with
        | none => (Except.error ⟨Fault.Undefined, st⟩ : Except (Failure S α) (SimpleSynch S α))
        | some _ => Except.ok st) =
      (match enablePeers rt h self.devices self.grads.length with
        | none => (Except.error ⟨Fault.Undefined, st⟩ : Except (Failure S α) (SimpleSynch S α))
        | some _ => Except.ok st) := by
    intro h st
    have := hpeers h
    cases h1 : enablePeers { rt with cudaDeviceEnablePeerAccess := f } h self.devices
        self.grads.length <;>
      cases h2 : enablePeers rt h self.devices self.grads.length <;>
      simp [h1, h2] at this ⊢
  unfold cudaSetup
  dsimp only
  by_cases hc : rt.cudacc = true
  · rw [if_pos hc, if_pos hc]
    by_cases hk : (!rt.kDevCPU) = true
    · rw [if_pos hk]
      cases hg : rt.cudaGetDevice with
      | none => rfl
      | some d => exact hmatch d { self with host_device := d }
    · rw [if_neg hk]
      exact hmatch self.host_device self
  · rw [if_neg hc, if_neg hc]

theorem elementwiseSum_replicate {α : Type} [AddMonoid α] (n N : Nat) (E : List α)
    (hE : E.length = n) :
    elementwiseSum n (List.replicate N E) = E.map (fun x => N • x) := by
  apply List.ext_getElem
  · simp [elementwiseSum, hE]
  · intro k h1 h2
    have hk : k < E.length := by simpa using h2
    simp [elementwiseSum, List.map_replicate, List.sum_replicate,
      List.getD_eq_getElem?_getD, List.getElem?_eq_getElem hk]

/-- Every finite sequence of calls returns and keeps the layout. -/
theorem calls_sameLayout {S α : Type} (rt : Runtime α) (add : α → α → α)
    (atoi : String → Int) (n : Nat) :
    ∀ (cs : List Call) (s : SimpleSynch S α), Inv s n →
      ∃ s1, SimpleSynch.calls rt add atoi s cs = some s1 ∧ SameLayout s s1 := by
  intro cs
  induction cs with
  | nil => intro s _; exact ⟨s, rfl, SameLayout_refl s⟩
  | cons c cs ih =>
    intro s hi
    have hstep : ∃ s1, s.call rt add atoi c = some s1 ∧ SameLayout s s1 := by
      cases c with
      | SetParam name val => exact ⟨_, rfl, SameLayout_SetParam atoi s name val⟩
      | SyncBeforeUpdate =>
        obtain ⟨s1, h1, h2, _⟩ := SyncBeforeUpdate_frame rt add s n hi
        exact ⟨s1, h1, h2⟩
      | SyncAfterUpdate =>
        obtain ⟨s1, h1, h2, _⟩ := SyncAfterUpdate_frame rt s n hi
        exact ⟨s1, h1, h2⟩
    obtain ⟨s1, h1, hl1⟩ := hstep
    obtain ⟨s2, h2, hl2⟩ := ih s1 (Inv_sameLayout s s1 n hi hl1)
    refine ⟨s2, ?_, SameLayout_trans s s1 s2 hl1 hl2⟩
    simp only [SimpleSynch.calls, h1, Option.some_bind]
    exact h2

/-- A finished loop of peer-access requests has read `devices[i]` in range only. -/
theorem enablePeers_some_le {α : Type} (rt : Runtime α) (host : Int) (devices : List Int) :
    ∀ (n i : Nat) (codes l : List Bool),
      forLoop (fun i codes =>
        devices[i]?.bind fun d =>
          if d ≠ host then some (codes ++ [rt.cudaDeviceEnablePeerAccess d])
          else some codes) n i codes = some l →
      n = 0 ∨ i + n ≤ devices.length := by
  intro n
  induction n with
  | zero => intro i codes l _; exact Or.inl rfl
  | succ n ih =>
    intro i codes l h
    right
    simp only [forLoop] at h
    cases hd : devices[i]? with
    | none =>
      rw [hd] at h
      cases h
    | some d =>
      have hi : i < devices.length := by
        by_contra hge
        rw [List.getElem?_eq_none (by omega)] at hd
        cases hd
      rw [hd] at h
      simp only [Option.some_bind] at h
      by_cases hh : d ≠ host
      · rw [if_pos hh] at h
        simp only [Option.some_bind] at h
        rcases ih (i + 1) _ l h with h0 | hle <;> omega
      · rw [if_neg hh] at h
        simp only [Option.some_bind] at h
        rcases ih (i + 1) _ l h with h0 | hle <;> omega

/-- The loop over the device identifiers `mid`, with others before and after them. -/
theorem enablePeers_requests_mid {α : Type} (rt : Runtime α) (host : Int) (post : List Int) :
    ∀ (mid pre : List Int) (codes : List Bool),
      forLoop (fun i codes =>
        (pre ++ (mid ++ post))[i]?.bind fun d =>
          if d ≠ host then some (codes ++ [rt.cudaDeviceEnablePeerAccess d])
          else some codes) mid.length pre.length codes =
        some (codes ++ (mid.filter (fun d => decide (d ≠ host))).map
          rt.cudaDeviceEnablePeerAccess) := by
  intro mid
  induction mid with
  | nil => intro pre codes; simp [forLoop]
  | cons d mid ih =>
    intro pre codes
    have hd : (pre ++ (d :: mid ++ post))[pre.length]? = some d :=
      getElem?_length_append pre d (mid ++ post)
    have hrec := ih (pre ++ [d])
    simp only [List.append_assoc, List.singleton_append, List.length_append,
      List.length_singleton] at hrec
    simp only [List.length_cons, forLoop, hd, Option.some_bind]
    by_cases hh : d ≠ host
    · rw [if_pos hh]
      simp only [Option.some_bind]
      have hrec2 := hrec (codes ++ [rt.cudaDeviceEnablePeerAccess d])
      simp only [List.cons_append] at hrec2 ⊢
      rw [hrec2]
      simp [hh]
    · rw [if_neg hh]
      simp only [Option.some_bind]
      have hrec2 := hrec codes
      simp only [List.cons_append] at hrec2 ⊢
      rw [hrec2]
      simp [hh]

/-- What a finished loop of the constructor has requested: peer access for each of the
first `n` device identifiers that differs from the host device, in device order. -/
theorem enablePeers_eq {α : Type} (rt : Runtime α) (host : Int) (devices : List Int)
    (n : Nat) (l : List Bool) (h : enablePeers rt host devices n = some l) :
    n ≤ devices.length ∧
      enablePeers rt host devices n =
        some (((devices.take n).filter (fun d => decide (d ≠ host))).map
          rt.cudaDeviceEnablePeerAccess) := by
  have hle : n ≤ devices.length := by
    unfold enablePeers at h
    rcases enablePeers_some_le rt host devices n 0 [] l h with h0 | h1 <;> omega
  refine ⟨hle, ?_⟩
  have hm := enablePeers_requests_mid rt host (devices.drop n) (devices.take n) [] []
  simp only [List.nil_append, List.take_append_drop, List.length_take, List.length_nil,
    Nat.min_eq_left hle] at hm
  unfold enablePeers
  exact hm

/-- What a finished `cudaSetup` has done in a CUDA build. -/
theorem cudaSetup_ok_cuda {S α : Type} (rt : Runtime α) (self self1 : SimpleSynch S α)
    (h : cudaSetup rt self = .ok self1) (hc : rt.cudacc = true) :
    (rt.kDevCPU = false → rt.cudaGetDevice = some self1.host_device) ∧
    (rt.kDevCPU = true → self1.host_device = self.host_device) ∧
    ∃ l, enablePeers rt self1.host_device self.devices self.grads.length = some l := by
  unfold cudaSetup at h
  simp only [hc, if_true] at h
  by_cases hk : rt.kDevCPU = true
  · simp only [hk, Bool.not_true, Bool.false_eq_true, if_false] at h
    cases hp : enablePeers rt self.host_device self.devices self.grads.length with
    | none => simp [hp] at h
    | some l =>
      simp only [hp] at h
      injection h with h
      subst h
      exact ⟨fun hf => absurd (hk.symm.trans hf) (by decide), fun _ => rfl, l, hp⟩
  · have hk2 : rt.kDevCPU = false := by simpa using hk
    simp only [hk2, Bool.not_false, if_true] at h
    cases hg : rt.cudaGetDevice with
    | none => simp [hg] at h
    | some d =>
      simp only [hg] at h
      cases hp : enablePeers rt d self.devices self.grads.length with
      | none => simp [hp] at h
      | some l =>
        simp only [hp] at h
        injection h with h
        subst h
        exact ⟨fun _ => rfl, fun ht => absurd (hk2.symm.trans ht) (by decide), l, hp⟩

/-- A finished constructor has run `cudaSetup` on the object with `host_device = 0`. -/
theorem new_ok_cudaSetup {S α : Type} [DecidableEq S] (rt : Runtime α) (tag : String)
    (weights grads : List (Tensor S α)) (devices : List Int) (s : SimpleSynch S α)
    (h : SimpleSynch.new rt tag weights grads devices = .ok s) :
    ∃ self1, cudaSetup rt
        ({ sync_weight := rt.indet, tag := tag, host_device := 0, wtmp := [], wsum := [],
           weights := weights, grads := grads, devices := devices } : SimpleSynch S α) =
          .ok self1 ∧
      s.host_device = self1.host_device := by
  unfold SimpleSynch.new at h
  cases weights with
  | nil => cases h
  | cons w0 rest =>
    dsimp only at h
    split at h
    · cases h
    · split at h
      · cases h
      · split at h
        · cases h
        · split at h
          · cases h
          · rename_i self1 hcs
            refine ⟨self1, hcs, ?_⟩
            injection h with h
            rw [← h]
            by_cases hl : (w0 :: rest).length > 1
            · simp only [hl, if_true]
            · simp only [hl, if_false]

/-- A failing `cudaGetDevice` ends the constructor of a device build in the check
"cannot get device", on every group that passes the assertions. -/
theorem new_check_failure {S α : Type} [DecidableEq S] (rt : Runtime α) (tag : String)
    (weights grads : List (Tensor S α)) (devices : List Int)
    (hs : ShapesAgree weights grads) (hc : rt.cudacc = true) (hk : rt.kDevCPU = false)
    (hg : rt.cudaGetDevice = none) :
    ∃ fl, SimpleSynch.new rt tag weights grads devices = .error fl ∧
      fl.fault = Fault.Check "cannot get device" := by
  obtain ⟨hne, hlen, hall⟩ := hs
  cases weights with
  | nil => simp at hne
  | cons w0 rest =>
    have hrest : rest.all (shapeOk w0) = true := by
      apply List.all_eq_true.mpr
      intro t ht
      have := hall t (by simp [ht]) w0 (by simp)
      simp [shapeOk, this.1, this.2]
    have hgrads : grads.all (shapeOk w0) = true := by
      apply List.all_eq_true.mpr
      intro t ht
      have := hall t (by simp [ht]) w0 (by simp)
      simp [shapeOk, this.1, this.2]
    have hcs : ∀ self : SimpleSynch S α,
        cudaSetup rt self = .error ⟨Fault.Check "cannot get device", self⟩ := by
      intro self
      unfold cudaSetup
      simp only [hc, hk, hg, if_true, Bool.not_false]
    unfold SimpleSynch.new
    dsimp only
    rw [if_neg (by simpa using hlen), hrest, hgrads]
    simp only [Bool.not_true, Bool.false_eq_true, if_false]
    rw [hcs]
    exact ⟨_, rfl, rfl⟩

/-! ## The properties of the specification -/

/-- C1: on a successfully constructed group of at least two members, whatever the
gradient buffers hold, `SyncBeforeUpdate` returns and leaves in every gradient buffer
the elementwise sum of all gradient buffers as they were before the call (addition is
exact: any additive monoid). -/
theorem SyncBeforeUpdate_sums_gradients {S α : Type} [DecidableEq S] [AddMonoid α]
    (rt : Runtime α) (tag : String) (weights grads : List (Tensor S α)) (devices : List Int)
    (s0 s : SimpleSynch S α)
    (hnew : SimpleSynch.new rt tag weights grads devices = .ok s0)
    (hv : ValidGroup weights grads devices) (hl : SameLayout s0 s)
    (hN : 2 ≤ s.weights.length) :
    ∃ s1, s.SyncBeforeUpdate rt (· + ·) = some s1 ∧
      s1.grads.map Tensor.layout = s.grads.map Tensor.layout ∧
      ∀ g ∈ s1.grads, g.dptr_ = elementwiseSum g.dptr_.length (s.grads.map Tensor.dptr_) := by
  obtain ⟨n, hi0⟩ := Inv_new rt tag weights grads devices s0 hnew hv
  have hi := Inv_sameLayout s0 s n hi0 hl
  obtain ⟨g0, rest, t, hg, _, heq⟩ := SyncBeforeUpdate_eq rt (· + ·) s n hi hN
  have hsum : List.foldl (List.zipWith (· + ·)) g0.dptr_ (rest.map Tensor.dptr_) =
      elementwiseSum n (s.grads.map Tensor.dptr_) := by
    rw [hg, List.map_cons]
    apply foldl_zipWith_eq_elementwiseSum n
    · exact hi.gsz g0 (by simp [hg])
    · intro b hb
      obtain ⟨x, hx, rfl⟩ := List.mem_map.mp hb
      exact hi.gsz x (by simp [hg, hx])
  refine ⟨_, heq, ?_, ?_⟩
  · simp only [List.map_map]
    apply List.map_congr_left
    intro g hgm
    simp [Tensor.layout, hsum, length_elementwiseSum, hi.gsz g hgm]
  · intro g hgm
    obtain ⟨x, _, rfl⟩ := List.mem_map.mp hgm
    simp only [hsum, length_elementwiseSum]

/-- C1 at three devices with scalar gradients 1, 2, 3: every buffer reads 6. -/
theorem SyncBeforeUpdate_sums_gradients_witness :
    (∃ s1, scalarGroup.SyncBeforeUpdate cpuRuntime (· + ·) = some s1 ∧
      s1.grads.map Tensor.layout = scalarGroup.grads.map Tensor.layout ∧
      ∀ g ∈ s1.grads,
        g.dptr_ = elementwiseSum g.dptr_.length (scalarGroup.grads.map Tensor.dptr_)) ∧
    (scalarGroup.SyncBeforeUpdate cpuRuntime (· + ·)).map
      (fun s1 => s1.grads.map Tensor.dptr_) = some [[6], [6], [6]] :=
  ⟨SyncBeforeUpdate_sums_gradients cpuRuntime "fc1"
      [rowTensor [101], rowTensor [0], rowTensor [0]]
      [rowTensor [1], rowTensor [2], rowTensor [3]] [0, 1, 2] scalarGroup scalarGroup
      (by rfl) (by decide) (by decide) (by decide), by rfl⟩

/-- C2: on a successfully constructed group of any size and for any addition on the
elements, `SyncBeforeUpdate` returns and leaves all gradient buffers equal to one
another. -/
theorem SyncBeforeUpdate_grads_identical {S α : Type} [DecidableEq S]
    (rt : Runtime α) (add : α → α → α) (tag : String) (weights grads : List (Tensor S α))
    (devices : List Int) (s0 s : SimpleSynch S α)
    (hnew : SimpleSynch.new rt tag weights grads devices = .ok s0)
    (hv : ValidGroup weights grads devices) (hl : SameLayout s0 s) :
    ∃ s1, s.SyncBeforeUpdate rt add = some s1 ∧
      s1.grads.length = s.grads.length ∧
      ∀ g ∈ s1.grads, ∀ g1 ∈ s1.grads, g.dptr_ = g1.dptr_ := by
  obtain ⟨n, hi0⟩ := Inv_new rt tag weights grads devices s0 hnew hv
  have hi := Inv_sameLayout s0 s n hi0 hl
  by_cases hN : 2 ≤ s.weights.length
  · obtain ⟨g0, rest, t, _, _, heq⟩ := SyncBeforeUpdate_eq rt add s n hi hN
    refine ⟨_, heq, by simp, ?_⟩
    intro g hg g1 hg1
    obtain ⟨x, _, rfl⟩ := List.mem_map.mp hg
    obtain ⟨y, _, rfl⟩ := List.mem_map.mp hg1
    rfl
  · have h1 : s.weights.length = 1 := by
      have := List.length_pos.mpr hi.wne
      omega
    refine ⟨s, SyncBeforeUpdate_single rt add s h1, rfl, ?_⟩
    intro g hg g1 hg1
    have hlen : s.grads.length = 1 := by rw [hi.glen, h1]
    obtain ⟨x, hx⟩ := List.length_eq_one.mp hlen
    rw [hx] at hg hg1
    rw [List.mem_singleton.mp hg, List.mem_singleton.mp hg1]

/-- C2 at two devices with two-element gradients and subtraction as the operation. -/
theorem SyncBeforeUpdate_grads_identical_witness :
    ∃ s1, pairGroup.SyncBeforeUpdate cpuRuntime (· - ·) = some s1 ∧
      s1.grads.length = pairGroup.grads.length ∧
      ∀ g ∈ s1.grads, ∀ g1 ∈ s1.grads, g.dptr_ = g1.dptr_ :=
  SyncBeforeUpdate_grads_identical cpuRuntime (· - ·) "fc2"
    [rowTensor [5, 6], rowTensor [7, 8]] [rowTensor [1, 5], rowTensor [2, 6]] [0, 1]
    pairGroup pairGroup (by rfl) (by decide) (by decide)

/-- C3: on a successfully constructed group of at least two members with a nonzero
`sync_weight`, whatever the weight buffers hold, `SyncAfterUpdate` returns and leaves in
every weight buffer what `weights[0]` held before the call. -/
theorem SyncAfterUpdate_broadcasts_weights {S α : Type} [DecidableEq S]
    (rt : Runtime α) (tag : String) (weights grads : List (Tensor S α)) (devices : List Int)
    (s0 s : SimpleSynch S α)
    (hnew : SimpleSynch.new rt tag weights grads devices = .ok s0)
    (hv : ValidGroup weights grads devices) (hl : SameLayout s0 s)
    (hN : 2 ≤ s.weights.length) (hf : s.sync_weight ≠ 0) :
    ∃ s1 w0, s.SyncAfterUpdate rt = some s1 ∧ s.weights[0]? = some w0 ∧
      s1.weights.length = s.weights.length ∧
      ∀ w ∈ s1.weights, w.dptr_ = w0.dptr_ := by
  obtain ⟨n, hi0⟩ := Inv_new rt tag weights grads devices s0 hnew hv
  have hi := Inv_sameLayout s0 s n hi0 hl
  obtain ⟨w0, rest, hw, heq⟩ := SyncAfterUpdate_eq rt s n hi hN hf
  refine ⟨_, w0, heq, by simp [hw], by simp [hw], ?_⟩
  intro w hwm
  rcases List.mem_cons.mp hwm with h0 | hr
  · rw [h0]
  · obtain ⟨x, _, rfl⟩ := List.mem_map.mp hr
    rfl

/-- C3 at three devices whose weights read 101, 0, 0: every buffer reads 101. -/
theorem SyncAfterUpdate_broadcasts_weights_witness :
    (∃ s1 w0, scalarGroup.SyncAfterUpdate cpuRuntime = some s1 ∧
      scalarGroup.weights[0]? = some w0 ∧
      s1.weights.length = scalarGroup.weights.length ∧
      ∀ w ∈ s1.weights, w.dptr_ = w0.dptr_) ∧
    (scalarGroup.SyncAfterUpdate cpuRuntime).map
      (fun s1 => s1.weights.map Tensor.dptr_) = some [[101], [101], [101]] :=
  ⟨SyncAfterUpdate_broadcasts_weights cpuRuntime "fc1"
      [rowTensor [101], rowTensor [0], rowTensor [0]]
      [rowTensor [1], rowTensor [2], rowTensor [3]] [0, 1, 2] scalarGroup scalarGroup
      (by rfl) (by decide) (by decide) (by decide) (by decide), by rfl⟩

/-- C4: on a group of exactly one member, whatever the buffers and the flag hold and
also after any `SetParam` call, `SyncBeforeUpdate` and `SyncAfterUpdate` return the
state they were given, and both scratch buffers are still empty. -/
theorem sync_single_member_noop {S α : Type} [DecidableEq S]
    (rt : Runtime α) (add : α → α → α) (tag : String) (weights grads : List (Tensor S α))
    (devices : List Int) (s0 s : SimpleSynch S α)
    (hnew : SimpleSynch.new rt tag weights grads devices = .ok s0)
    (h1 : weights.length = 1) (hl : SameLayout s0 s)
    (atoi : String → Int) (name val : String) :
    (s.SyncBeforeUpdate rt add = some s ∧ s.SyncAfterUpdate rt = some s ∧
      s.wtmp = [] ∧ s.wsum = []) ∧
    ((s.SetParam atoi name val).SyncBeforeUpdate rt add = some (s.SetParam atoi name val) ∧
      (s.SetParam atoi name val).SyncAfterUpdate rt = some (s.SetParam atoi name val) ∧
      (s.SetParam atoi name val).weights = s.weights ∧
      (s.SetParam atoi name val).grads = s.grads ∧
      (s.SetParam atoi name val).wtmp = [] ∧ (s.SetParam atoi name val).wsum = []) := by
  obtain ⟨w0, rest, d, _, _, _, _, hs0⟩ := new_ok rt tag weights grads devices s0 hnew
  have hw1 : s.weights.length = 1 := by
    rw [length_weights_of_sameLayout s0 s hl, hs0]
    exact h1
  have hnot : ¬ weights.length > 1 := by omega
  have htmp : s.wtmp = [] := by
    apply List.eq_nil_of_length_eq_zero
    rw [hl.2.2.2.1, hs0]
    simp [hnot]
  have hsumE : s.wsum = [] := by
    apply List.eq_nil_of_length_eq_zero
    rw [hl.2.2.2.2.1, hs0]
    simp [hnot]
  refine ⟨⟨SyncBeforeUpdate_single rt add s hw1, SyncAfterUpdate_skip rt s (Or.inl hw1),
    htmp, hsumE⟩, ?_⟩
  rcases SetParam_cases atoi s name val with h | h
  · rw [h]
    exact ⟨SyncBeforeUpdate_single rt add s hw1, SyncAfterUpdate_skip rt s (Or.inl hw1),
      rfl, rfl, htmp, hsumE⟩
  · rw [h]
    exact ⟨SyncBeforeUpdate_single rt add _ hw1, SyncAfterUpdate_skip rt _ (Or.inl hw1),
      rfl, rfl, htmp, hsumE⟩

/-- C4 at a single device, with `sync_weight` switched on through `SetParam`. -/
theorem sync_single_member_noop_witness :
    (singleGroup.SyncBeforeUpdate cpuRuntime (· + ·) = some singleGroup ∧
      singleGroup.SyncAfterUpdate cpuRuntime = some singleGroup ∧
      singleGroup.wtmp = [] ∧ singleGroup.wsum = []) ∧
    ((singleGroup.SetParam decimalAtoi "sync_weight" "1").SyncBeforeUpdate cpuRuntime (· + ·) =
        some (singleGroup.SetParam decimalAtoi "sync_weight" "1") ∧
      (singleGroup.SetParam decimalAtoi "sync_weight" "1").SyncAfterUpdate cpuRuntime =
        some (singleGroup.SetParam decimalAtoi "sync_weight" "1") ∧
      (singleGroup.SetParam decimalAtoi "sync_weight" "1").weights = singleGroup.weights ∧
      (singleGroup.SetParam decimalAtoi "sync_weight" "1").grads = singleGroup.grads ∧
      (singleGroup.SetParam decimalAtoi "sync_weight" "1").wtmp = [] ∧
      (singleGroup.SetParam decimalAtoi "sync_weight" "1").wsum = []) :=
  sync_single_member_noop cpuRuntime (· + ·) "fc3" [rowTensor [4, 5]] [rowTensor [9, 9]] [0]
    singleGroup singleGroup (by rfl) (by rfl) (by decide) decimalAtoi "sync_weight" "1"

/-- C5: when `sync_weight` is 0, `SyncAfterUpdate` returns the state it was given, on
a group of any size, and a second call in a row gives what the first one gave. -/
theorem SyncAfterUpdate_flag_off {S α : Type} (rt : Runtime α) (s : SimpleSynch S α)
    (hf : s.sync_weight = 0) :
    s.SyncAfterUpdate rt = some s ∧
      (s.SyncAfterUpdate rt).bind (SimpleSynch.SyncAfterUpdate rt) = s.SyncAfterUpdate rt := by
  have h := SyncAfterUpdate_skip rt s (Or.inr hf)
  exact ⟨h, by rw [h]; exact h⟩

/-- C5 at three devices after `SetParam("sync_weight", "0")`. -/
theorem SyncAfterUpdate_flag_off_witness :
    (scalarGroup.SetParam decimalAtoi "sync_weight" "0").SyncAfterUpdate cpuRuntime =
        some (scalarGroup.SetParam decimalAtoi "sync_weight" "0") ∧
      ((scalarGroup.SetParam decimalAtoi "sync_weight" "0").SyncAfterUpdate cpuRuntime).bind
          (SimpleSynch.SyncAfterUpdate cpuRuntime) =
        (scalarGroup.SetParam decimalAtoi "sync_weight" "0").SyncAfterUpdate cpuRuntime :=
  SyncAfterUpdate_flag_off cpuRuntime (scalarGroup.SetParam decimalAtoi "sync_weight" "0")
    (by rfl)

/-- C6: the constructor ends in a failed assertion, with both scratch buffers still
empty, when `weights` is empty, when `weights` and `grads` differ in length, or when the
shape or the element count of some weight or gradient differs from that of `weights[0]`. -/
theorem new_rejects_malformed_group {S α : Type} [DecidableEq S] (rt : Runtime α)
    (tag : String) (weights grads : List (Tensor S α)) (devices : List Int)
    (h : weights = [] ∨ weights.length ≠ grads.length ∨
      ∃ w0, weights[0]? = some w0 ∧
        ∃ t ∈ weights ++ grads, t.shape_ ≠ w0.shape_ ∨ t.MSize ≠ w0.MSize) :
    ∃ f, SimpleSynch.new rt tag weights grads devices = .error f ∧
      (∃ msg, f.fault = Fault.Assert msg) ∧ f.obj.wtmp = [] ∧ f.obj.wsum = [] := by
  unfold SimpleSynch.new
  cases weights with
  | nil => exact ⟨_, rfl, ⟨_, rfl⟩, rfl, rfl⟩
  | cons w0 rest =>
    dsimp only
    by_cases h1 : (w0 :: rest).length ≠ grads.length
    · rw [if_pos h1]
      exact ⟨_, rfl, ⟨_, rfl⟩, rfl, rfl⟩
    · rw [if_neg h1]
      by_cases h2 : (!(rest.all (shapeOk w0))) = true
      · rw [if_pos h2]
        exact ⟨_, rfl, ⟨_, rfl⟩, rfl, rfl⟩
      · rw [if_neg h2]
        by_cases h3 : (!(grads.all (shapeOk w0))) = true
        · rw [if_pos h3]
          exact ⟨_, rfl, ⟨_, rfl⟩, rfl, rfl⟩
        · exfalso
          have h2b : rest.all (shapeOk w0) = true := by simpa using h2
          have h3b : grads.all (shapeOk w0) = true := by simpa using h3
          rcases h with h | h | ⟨w, hw, t, ht, hbad⟩
          · cases h
          · exact h1 h
          · have hw0 : w = w0 := by simpa using hw.symm
            subst hw0
            have hok : shapeOk w t = true := by
              rcases List.mem_append.mp ht with hm | hm
              · rcases List.mem_cons.mp hm with h0 | hr
                · simp [shapeOk, h0]
                · exact List.all_eq_true.mp h2b t hr
              · exact List.all_eq_true.mp h3b t hm
            have hboth : t.shape_ = w.shape_ ∧ t.MSize = w.MSize := by
              simpa [shapeOk] using hok
            rcases hbad with hb | hb
            · exact hb hboth.1
            · exact hb hboth.2

/-- C6 at two weights and one gradient. -/
theorem new_rejects_malformed_group_witness :
    ∃ f, SimpleSynch.new cpuRuntime "fc1" [rowTensor [1], rowTensor [2]] [rowTensor [3]] [0, 1]
        = .error f ∧
      (∃ msg, f.fault = Fault.Assert msg) ∧ f.obj.wtmp = [] ∧ f.obj.wsum = [] :=
  new_rejects_malformed_group cpuRuntime "fc1" [rowTensor [1], rowTensor [2]] [rowTensor [3]]
    [0, 1] (Or.inr (Or.inl (by decide)))

/-- C7, the code at two members and an empty `devices`: the constructor finishes, the
object has two weights and no device identifier, and `SyncBeforeUpdate` then reads
`devices[0]` outside the vector. -/
theorem new_accepts_missing_devices :
    SimpleSynch.new cpuRuntime "fc2" [rowTensor [5, 6], rowTensor [7, 8]]
        [rowTensor [1, 5], rowTensor [2, 6]] [] = .ok { pairGroup with devices := [] } ∧
      ({ pairGroup with devices := [] } : SimpleSynch (Nat × Nat) Int).devices.length ≠
        ({ pairGroup with devices := [] } : SimpleSynch (Nat × Nat) Int).weights.length ∧
      ({ pairGroup with devices := [] } : SimpleSynch (Nat × Nat) Int).SyncBeforeUpdate
        cpuRuntime (· + ·) = none :=
  ⟨by rfl, by decide, by rfl⟩

/-- C8: `CreateSynch` returns `NULL` (no synchronization) exactly when the type is
"none"; on a group that passes the assertions and a runtime that names its device it
returns a `SimpleSynch` exactly when the type is "simple", and that object holds the
given weights, grads, devices and tag; for every other type it fails with the message
"unknown syncrhonizer type " followed by the type. -/
theorem CreateSynch_selects_by_type {S α : Type} [DecidableEq S] (rt : Runtime α)
    (type : String) (weights grads : List (Tensor S α)) (devices : List Int) (tag : String)
    (hv : ValidGroup weights grads devices) (hs : ShapesAgree weights grads)
    (hrt : rt.cudacc = true → rt.kDevCPU = false → rt.cudaGetDevice ≠ none) :
    (CreateSynch rt type weights grads devices tag = .ok none ↔ type = "none") ∧
    ((∃ s, CreateSynch rt type weights grads devices tag = .ok (some s)) ↔ type = "simple") ∧
    (∀ s, CreateSynch rt type weights grads devices tag = .ok (some s) →
      SimpleSynch.new rt tag weights grads devices = .ok s ∧
      s.weights = weights ∧ s.grads = grads ∧ s.devices = devices ∧ s.tag = tag) ∧
    (type ≠ "none" → type ≠ "simple" →
      CreateSynch rt type weights grads devices tag =
        .error (Fault.Error ("unknown syncrhonizer type " ++ type))) := by
  have hdev : grads.length ≤ devices.length := by
    rw [hv.1, hs.2.1]
  obtain ⟨s0, hs0⟩ := new_succeeds rt tag weights grads devices hs hdev hrt
  have hne : ("simple" : String) ≠ "none" := by decide
  unfold CreateSynch
  simp only [strcmp_eq_zero]
  by_cases h1 : type = "none"
  · subst h1
    simp
  · rw [if_neg h1]
    by_cases h2 : type = "simple"
    · subst h2
      rw [if_pos rfl, hs0]
      obtain ⟨w0, rest, d, _, _, _, _, hs0eq⟩ := new_ok rt tag weights grads devices s0 hs0
      refine ⟨by simp, by simp, ?_, by simp⟩
      intro s hs
      have : s0 = s := by simpa using hs
      subst this
      refine ⟨rfl, ?_, ?_, ?_, ?_⟩ <;> rw [hs0eq]
    · rw [if_neg h2]
      simp [h1, h2]

/-- C8 at the type "bogus" on a valid group of three devices. -/
theorem CreateSynch_selects_by_type_witness :
    CreateSynch cpuRuntime "bogus" [rowTensor [101], rowTensor [0], rowTensor [0]]
        [rowTensor [1], rowTensor [2], rowTensor [3]] [0, 1, 2] "fc1" =
      .error (Fault.Error "unknown syncrhonizer type bogus") :=
  (CreateSynch_selects_by_type cpuRuntime "bogus"
    [rowTensor [101], rowTensor [0], rowTensor [0]]
    [rowTensor [1], rowTensor [2], rowTensor [3]] [0, 1, 2] "fc1"
    (by decide) (by decide) (by decide)).2.2.2 (by decide) (by decide)

/-- C9 as stated fails: for the type "none" on a single device, `CreateSynch` returns no
synchronizer object, so there is none whose sync methods leave the buffers unchanged. -/
theorem CreateSynch_none_usable_counterexample :
    ¬ ∃ s : SimpleSynch (Nat × Nat) Int,
      CreateSynch cpuRuntime "none" [rowTensor [4, 5]] [rowTensor [9, 9]] [0] "fc3" =
        .ok (some s) ∧
      s.SyncBeforeUpdate cpuRuntime (· + ·) = some s ∧ s.SyncAfterUpdate cpuRuntime = some s ∧
      ∀ name val, s.SetParam decimalAtoi name val = s := by
  rintro ⟨s, h, _⟩
  have h2 : CreateSynch cpuRuntime "none" [rowTensor [4, 5]] [rowTensor [9, 9]] [0] "fc3" =
      .ok (none : Option (SimpleSynch (Nat × Nat) Int)) := by rfl
  rw [h2] at h
  cases h

/-- C9 as amended: for the type "none" `CreateSynch` returns `NULL`, whatever the group
holds and without running any check of the constructor; no object is created. -/
theorem CreateSynch_none_is_null {S α : Type} [DecidableEq S] (rt : Runtime α)
    (weights grads : List (Tensor S α)) (devices : List Int) (tag : String) :
    CreateSynch rt "none" weights grads devices tag = .ok none := by
  unfold CreateSynch
  rw [if_pos ((strcmp_eq_zero _ _).mpr rfl)]

/-- C10: a constructed object has `sync_weight = 1`; `SetParam("sync_weight", v)` stores
`atoi(v)` in the flag and changes nothing else; `SyncAfterUpdate` then returns the state
unchanged when `atoi(v)` is 0 and broadcasts `weights[0]` on a group of two or more when
`atoi(v)` is any other integer; of two such calls in a row the second decides. -/
theorem sync_weight_flag {S α : Type} [DecidableEq S] (rt : Runtime α) (tag : String)
    (weights grads : List (Tensor S α)) (devices : List Int) (s0 s : SimpleSynch S α)
    (hnew : SimpleSynch.new rt tag weights grads devices = .ok s0)
    (hv : ValidGroup weights grads devices) (hl : SameLayout s0 s)
    (atoi : String → Int) (v v1 : String) :
    s0.sync_weight = 1 ∧
    s.SetParam atoi "sync_weight" v = { s with sync_weight := atoi v } ∧
    (atoi v = 0 →
      (s.SetParam atoi "sync_weight" v).SyncAfterUpdate rt =
        some (s.SetParam atoi "sync_weight" v)) ∧
    (atoi v ≠ 0 → 2 ≤ s.weights.length →
      ∃ s1 w0, (s.SetParam atoi "sync_weight" v).SyncAfterUpdate rt = some s1 ∧
        s.weights[0]? = some w0 ∧ s1.weights.length = s.weights.length ∧
        s1.sync_weight = atoi v ∧ ∀ w ∈ s1.weights, w.dptr_ = w0.dptr_) ∧
    (s.SetParam atoi "sync_weight" v1).SetParam atoi "sync_weight" v =
      s.SetParam atoi "sync_weight" v := by
  obtain ⟨n, hi0⟩ := Inv_new rt tag weights grads devices s0 hnew hv
  have hi := Inv_sameLayout s0 s n hi0 hl
  obtain ⟨w0, rest, d, _, _, _, _, hs0eq⟩ := new_ok rt tag weights grads devices s0 hnew
  refine ⟨by rw [hs0eq], SetParam_sync_weight atoi s v, ?_, ?_, ?_⟩
  · intro h0
    rw [SetParam_sync_weight]
    exact SyncAfterUpdate_skip rt _ (Or.inr h0)
  · intro hnz hN
    rw [SetParam_sync_weight]
    have hi2 : Inv ({ s with sync_weight := atoi v } : SimpleSynch S α) n :=
      ⟨hi.wne, hi.glen, hi.dlen, hi.wsz, hi.gsz, hi.tmp, hi.sum⟩
    obtain ⟨w0, rest, hw, heq⟩ := SyncAfterUpdate_eq rt _ n hi2 hN hnz
    have hw2 : s.weights = w0 :: rest := hw
    refine ⟨_, w0, heq, by simp [hw2], by simp [hw2], rfl, ?_⟩
    intro w hwm
    rcases List.mem_cons.mp hwm with h0 | hr
    · rw [h0]
    · obtain ⟨x, _, rfl⟩ := List.mem_map.mp hr
      rfl
  · rw [SetParam_sync_weight, SetParam_sync_weight, SetParam_sync_weight]

/-- C10 at three devices, the value "-1" after the value "0". -/
theorem sync_weight_flag_witness :
    (scalarGroup.SetParam decimalAtoi "sync_weight" "-1").sync_weight = -1 ∧
    ((scalarGroup.SetParam decimalAtoi "sync_weight" "0").SetParam decimalAtoi
        "sync_weight" "-1") = scalarGroup.SetParam decimalAtoi "sync_weight" "-1" :=
  have h := sync_weight_flag cpuRuntime "fc1"
    [rowTensor [101], rowTensor [0], rowTensor [0]]
    [rowTensor [1], rowTensor [2], rowTensor [3]] [0, 1, 2] scalarGroup scalarGroup
    (by rfl) (by decide) (by decide) decimalAtoi "-1" "0"
  ⟨by rw [h.2.1]; rfl, h.2.2.2.2⟩

/-- C11: for every tag, value and state, `SetParam` with the key made of the tag of the
group, the separator `:` and "sync_weight" gives the same state as `SetParam` with the
key "sync_weight". -/
theorem SetParam_own_tag_stripped {S α : Type} (atoi : String → Int) (s : SimpleSynch S α)
    (v : String) :
    s.SetParam atoi (s.tag ++ ":sync_weight") v = s.SetParam atoi "sync_weight" v := by
  have hdata : (s.tag ++ ":sync_weight").data = s.tag.data ++ ':' :: "sync_weight".data := rfl
  have hbare : bareKey s.tag (s.tag ++ ":sync_weight") = "sync_weight" := by
    unfold bareKey
    rw [hdata]
    have htake : (s.tag.data ++ ':' :: "sync_weight".data).take (s.tag.data.length + 1) =
        s.tag.data ++ [':'] := by
      rw [List.take_append_eq_append_take]
      simp
    have hdrop : (s.tag.data ++ ':' :: "sync_weight".data).drop (s.tag.data.length + 1) =
        "sync_weight".data := by
      rw [List.drop_append_eq_append_drop]
      simp
    rw [if_pos htake, hdrop]
  rw [SetParam_eq_bareKey, hbare, if_pos rfl, SetParam_sync_weight]

/-- C12: when the key, without a leading own tag and separator, is not "sync_weight",
`SetParam` returns the state it was given, for every value. -/
theorem SetParam_ignores_other_keys {S α : Type} (atoi : String → Int) (s : SimpleSynch S α)
    (name val : String) (h : bareKey s.tag name ≠ "sync_weight") :
    s.SetParam atoi name val = s := by
  rw [SetParam_eq_bareKey, if_neg h]

/-- C12 at the group tagged "fc1": a key with the tag of another group, and a key that
starts with the own tag without the separator. -/
theorem SetParam_ignores_other_keys_witness :
    scalarGroup.SetParam decimalAtoi "fc2:sync_weight" "0" = scalarGroup ∧
    scalarGroup.SetParam decimalAtoi "fc1sync_weight" "0" = scalarGroup :=
  ⟨SetParam_ignores_other_keys decimalAtoi scalarGroup "fc2:sync_weight" "0" (by decide),
   SetParam_ignores_other_keys decimalAtoi scalarGroup "fc1sync_weight" "0" (by decide)⟩

/-- C13 as stated fails: in a CUDA build with host device 0 and devices 0 and 1, the
request for peer access to device 1 fails and the constructor still finishes. -/
theorem new_peer_access_failure_counterexample :
    (1 : Int) ≠ 0 ∧ gpuRuntime.cudaGetDevice = some 0 ∧
    gpuRuntime.cudaDeviceEnablePeerAccess 1 = false ∧
    enablePeers gpuRuntime 0 [0, 1] 2 = some [false] ∧
    SimpleSynch.new gpuRuntime "fc2" [rowTensor [5, 6], rowTensor [7, 8]]
      [rowTensor [1, 5], rowTensor [2, 6]] [0, 1] = .ok pairGroup :=
  ⟨by decide, rfl, rfl, by rfl, by rfl⟩

/-- C13 as amended: a failure to enable peer access is not a construction failure.  The
constructor returns the same result whatever `cudaDeviceEnablePeerAccess` returns.  In a
CUDA build a finished constructor has taken the host device from `cudaGetDevice` (0 on
a CPU `xpu`), has read `devices[i]` for every `i < grads.size()` in range, and its loop
has asked for peer access exactly for those of these devices that differ from the host
device, in device order, the statuses being dropped.  A group that passes the assertions
and has a device identifier for every gradient is constructed whenever `cudaGetDevice`
does not fail, and a failing `cudaGetDevice` ends construction in the check "cannot get
device". -/
theorem new_discards_peer_access_status {S α : Type} [DecidableEq S] (rt : Runtime α)
    (f : Int → Bool) (tag : String) (weights grads : List (Tensor S α))
    (devices : List Int) :
    (SimpleSynch.new { rt with cudaDeviceEnablePeerAccess := f } tag weights grads devices =
      SimpleSynch.new rt tag weights grads devices) ∧
    (∀ s, SimpleSynch.new rt tag weights grads devices = .ok s → rt.cudacc = true →
      (rt.kDevCPU = false → rt.cudaGetDevice = some s.host_device) ∧
      (rt.kDevCPU = true → s.host_device = 0) ∧
      grads.length ≤ devices.length ∧
      enablePeers rt s.host_device devices grads.length =
        some (((devices.take grads.length).filter
          (fun d => decide (d ≠ s.host_device))).map rt.cudaDeviceEnablePeerAccess)) ∧
    (ShapesAgree weights grads → grads.length ≤ devices.length →
      (rt.cudacc = true → rt.kDevCPU = false → rt.cudaGetDevice ≠ none) →
      ∃ s, SimpleSynch.new { rt with cudaDeviceEnablePeerAccess := f } tag weights grads
        devices = .ok s) ∧
    (ShapesAgree weights grads → rt.cudacc = true → rt.kDevCPU = false →
      rt.cudaGetDevice = none →
      ∃ fl, SimpleSynch.new rt tag weights grads devices = .error fl ∧
        fl.fault = Fault.Check "cannot get device") := by
  have hsame : SimpleSynch.new { rt with cudaDeviceEnablePeerAccess := f } tag weights grads
      devices = SimpleSynch.new rt tag weights grads devices := by
    unfold SimpleSynch.new
    cases weights with
    | nil => rfl
    | cons w0 rest =>
      dsimp only
      rw [cudaSetup_congr]
      rfl
  refine ⟨hsame, ?_, ?_, ?_⟩
  · intro s hs hc
    obtain ⟨self1, hcs, hhost⟩ := new_ok_cudaSetup rt tag weights grads devices s hs
    obtain ⟨h1, h2, l, hl⟩ := cudaSetup_ok_cuda rt _ self1 hcs hc
    rw [← hhost] at h1 h2 hl
    obtain ⟨hle, heq⟩ := enablePeers_eq rt s.host_device devices grads.length l hl
    exact ⟨h1, h2, hle, heq⟩
  · intro hsa hle hrt
    rw [hsame]
    exact new_succeeds rt tag weights grads devices hsa hle hrt
  · intro hsa hc hk hg
    exact new_check_failure rt tag weights grads devices hsa hc hk hg

/-- C13 as amended, at two devices in a CUDA build whose current device is 0: the same
object with peer access granted or refused, the request made for device 1 only, and the
failed check once `cudaGetDevice` fails. -/
theorem new_discards_peer_access_status_witness :
    (SimpleSynch.new { gpuRuntime with cudaDeviceEnablePeerAccess := fun _ => true } "fc2"
        [rowTensor [5, 6], rowTensor [7, 8]] [rowTensor [1, 5], rowTensor [2, 6]] [0, 1] =
      SimpleSynch.new gpuRuntime "fc2" [rowTensor [5, 6], rowTensor [7, 8]]
        [rowTensor [1, 5], rowTensor [2, 6]] [0, 1]) ∧
    ((gpuRuntime.kDevCPU = false → gpuRuntime.cudaGetDevice = some pairGroup.host_device) ∧
      (gpuRuntime.kDevCPU = true → pairGroup.host_device = 0) ∧
      [rowTensor [1, 5], rowTensor [2, 6]].length ≤ [(0 : Int), 1].length ∧
      enablePeers gpuRuntime pairGroup.host_device [0, 1]
          [rowTensor [1, 5], rowTensor [2, 6]].length =
        some ((([(0 : Int), 1].take [rowTensor [1, 5], rowTensor [2, 6]].length).filter
          (fun d => decide (d ≠ pairGroup.host_device))).map
            gpuRuntime.cudaDeviceEnablePeerAccess)) ∧
    (∃ fl, SimpleSynch.new { gpuRuntime with cudaGetDevice := none } "fc2"
        [rowTensor [5, 6], rowTensor [7, 8]] [rowTensor [1, 5], rowTensor [2, 6]] [0, 1] =
          .error fl ∧
      fl.fault = Fault.Check "cannot get device") :=
  ⟨(new_discards_peer_access_status gpuRuntime (fun _ => true) "fc2"
      [rowTensor [5, 6], rowTensor [7, 8]] [rowTensor [1, 5], rowTensor [2, 6]] [0, 1]).1,
   (new_discards_peer_access_status gpuRuntime (fun _ => true) "fc2"
      [rowTensor [5, 6], rowTensor [7, 8]] [rowTensor [1, 5], rowTensor [2, 6]]
      [0, 1]).2.1 pairGroup (by rfl) (by rfl),
   (new_discards_peer_access_status { gpuRuntime with cudaGetDevice := none }
      (fun _ => true) "fc2" [rowTensor [5, 6], rowTensor [7, 8]]
      [rowTensor [1, 5], rowTensor [2, 6]] [0, 1]).2.2.2 (by decide) (by rfl) (by rfl)
      (by rfl)⟩

/-- C14: on a group of at least two members and for any binary addition, every entry
of every gradient buffer after `SyncBeforeUpdate` is the left fold in device order of
the entries the gradients held before: device 0 first, each later device added on the
right. -/
theorem SyncBeforeUpdate_left_fold {S α : Type} [DecidableEq S]
    (rt : Runtime α) (add : α → α → α) (tag : String) (weights grads : List (Tensor S α))
    (devices : List Int) (s0 s : SimpleSynch S α)
    (hnew : SimpleSynch.new rt tag weights grads devices = .ok s0)
    (hv : ValidGroup weights grads devices) (hl : SameLayout s0 s)
    (hN : 2 ≤ s.weights.length) :
    ∃ s1, s.SyncBeforeUpdate rt add = some s1 ∧
      s1.grads.map Tensor.layout = s.grads.map Tensor.layout ∧
      ∀ g ∈ s1.grads, ∀ (z : α) (k : Nat), k < g.dptr_.length →
        g.dptr_.getD k z = leftFoldEntry add z k (s.grads.map Tensor.dptr_) := by
  obtain ⟨n, hi0⟩ := Inv_new rt tag weights grads devices s0 hnew hv
  have hi := Inv_sameLayout s0 s n hi0 hl
  obtain ⟨g0, rest, t, hg, _, heq⟩ := SyncBeforeUpdate_eq rt add s n hi hN
  have hg0 : g0.dptr_.length = n := hi.gsz g0 (by simp [hg])
  have hrest : ∀ b ∈ rest.map Tensor.dptr_, b.length = n := by
    intro b hb
    obtain ⟨x, hx, rfl⟩ := List.mem_map.mp hb
    exact hi.gsz x (by simp [hg, hx])
  have hfl := length_foldl_zipWith add n (rest.map Tensor.dptr_) g0.dptr_ hg0 hrest
  refine ⟨_, heq, map_layout_overwrite n _ hfl s.grads hi.gsz, ?_⟩
  intro g hgm z k hk
  obtain ⟨x, _, rfl⟩ := List.mem_map.mp hgm
  have hkn : k < n := by
    have : k < (List.foldl (List.zipWith add) g0.dptr_ (rest.map Tensor.dptr_)).length := hk
    omega
  show (List.foldl (List.zipWith add) g0.dptr_ (rest.map Tensor.dptr_)).getD k z = _
  rw [getD_foldl_zipWith add z n k hkn (rest.map Tensor.dptr_) g0.dptr_ hg0 hrest, hg]
  rfl

/-- C14 at three devices with gradients 1, 2, 3 and subtraction: (1 - 2) - 3. -/
theorem SyncBeforeUpdate_left_fold_witness :
    (∃ s1, scalarGroup.SyncBeforeUpdate cpuRuntime (· - ·) = some s1 ∧
      s1.grads.map Tensor.layout = scalarGroup.grads.map Tensor.layout ∧
      ∀ g ∈ s1.grads, ∀ (z : Int) (k : Nat), k < g.dptr_.length →
        g.dptr_.getD k z = leftFoldEntry (· - ·) z k (scalarGroup.grads.map Tensor.dptr_)) ∧
    (scalarGroup.SyncBeforeUpdate cpuRuntime (· - ·)).map
      (fun s1 => s1.grads.map Tensor.dptr_) = some [[-4], [-4], [-4]] :=
  ⟨SyncBeforeUpdate_left_fold cpuRuntime (· - ·) "fc1"
      [rowTensor [101], rowTensor [0], rowTensor [0]]
      [rowTensor [1], rowTensor [2], rowTensor [3]] [0, 1, 2] scalarGroup scalarGroup
      (by rfl) (by decide) (by decide) (by decide), by rfl⟩

/-- C15: after a finished constructor both scratch buffers hold exactly
`weights[0].MSize()` elements when the group has more than one member, and both are
empty when it has exactly one. -/
theorem new_scratch_size {S α : Type} [DecidableEq S] (rt : Runtime α) (tag : String)
    (weights grads : List (Tensor S α)) (devices : List Int) (s0 : SimpleSynch S α)
    (hnew : SimpleSynch.new rt tag weights grads devices = .ok s0) :
    ∃ w0, weights[0]? = some w0 ∧
      (1 < weights.length → s0.wtmp.length = w0.MSize ∧ s0.wsum.length = w0.MSize) ∧
      (weights.length = 1 → s0.wtmp = [] ∧ s0.wsum = []) := by
  obtain ⟨w0, rest, d, hw, _, _, _, hs0⟩ := new_ok rt tag weights grads devices s0 hnew
  refine ⟨w0, by simp [hw], ?_, ?_⟩
  · intro h1
    have h1b : weights.length > 1 := h1
    rw [hs0]
    simp only [h1b, if_true, length_Resize, and_self]
  · intro h1
    have h1b : ¬ weights.length > 1 := by omega
    rw [hs0]
    simp only [h1b, if_false, and_self]

/-- C15 at the constructions of a group of two members and of a single member. -/
theorem new_scratch_size_witness :
    (∃ w0, [rowTensor [5, 6], rowTensor [7, 8]][0]? = some w0 ∧
      (1 < [rowTensor [5, 6], rowTensor [7, 8]].length →
        pairGroup.wtmp.length = w0.MSize ∧ pairGroup.wsum.length = w0.MSize) ∧
      ([rowTensor [5, 6], rowTensor [7, 8]].length = 1 →
        pairGroup.wtmp = [] ∧ pairGroup.wsum = [])) ∧
    (∃ w0, [rowTensor [4, 5]][0]? = some w0 ∧
      (1 < [rowTensor [4, 5]].length →
        singleGroup.wtmp.length = w0.MSize ∧ singleGroup.wsum.length = w0.MSize) ∧
      ([rowTensor [4, 5]].length = 1 → singleGroup.wtmp = [] ∧ singleGroup.wsum = [])) :=
  ⟨new_scratch_size cpuRuntime "fc2" [rowTensor [5, 6], rowTensor [7, 8]]
      [rowTensor [1, 5], rowTensor [2, 6]] [0, 1] pairGroup (by rfl),
   new_scratch_size cpuRuntime "fc3" [rowTensor [4, 5]] [rowTensor [9, 9]] [0] singleGroup
      (by rfl)⟩

/-- C16: from a successfully constructed group, every finite sequence of `SetParam`,
`SyncBeforeUpdate` and `SyncAfterUpdate` calls returns (no copy leaves its source or
destination block) and keeps the number of members, the shape and element count of
every weight and gradient buffer and the element count of both scratch buffers; on a
group of more than one member the scratch buffers, whose length is the size of every
copy, and all weight and gradient blocks hold `weights[0].MSize()` elements. -/
theorem calls_preserve_layout {S α : Type} [DecidableEq S] (rt : Runtime α)
    (add : α → α → α) (atoi : String → Int) (tag : String)
    (weights grads : List (Tensor S α)) (devices : List Int) (s0 s : SimpleSynch S α)
    (hnew : SimpleSynch.new rt tag weights grads devices = .ok s0)
    (hv : ValidGroup weights grads devices) (hl : SameLayout s0 s) (cs : List Call) :
    ∃ s1, SimpleSynch.calls rt add atoi s cs = some s1 ∧ SameLayout s0 s1 ∧
      s1.weights.length = weights.length ∧ s1.grads.length = grads.length ∧
      ∀ w0, weights[0]? = some w0 → 1 < weights.length →
        s1.wtmp.length = w0.MSize ∧ s1.wsum.length = w0.MSize ∧
        (∀ t ∈ s1.weights, t.dptr_.length = w0.MSize) ∧
        (∀ t ∈ s1.grads, t.dptr_.length = w0.MSize) := by
  obtain ⟨n, hi0⟩ := Inv_new rt tag weights grads devices s0 hnew hv
  have hi := Inv_sameLayout s0 s n hi0 hl
  obtain ⟨s1, hcalls, hl1⟩ := calls_sameLayout rt add atoi n cs s hi
  have hl01 := SameLayout_trans s0 s s1 hl hl1
  have hi1 := Inv_sameLayout s0 s1 n hi0 hl01
  obtain ⟨w0, rest, d, hw, hlen, _, _, hs0⟩ := new_ok rt tag weights grads devices s0 hnew
  have hw0 : s0.weights = weights := by rw [hs0]
  have hg0 : s0.grads = grads := by rw [hs0]
  have hwl : s1.weights.length = weights.length := by
    rw [length_weights_of_sameLayout s0 s1 hl01, hw0]
  refine ⟨s1, hcalls, hl01, hwl, ?_, ?_⟩
  · rw [hi1.glen, hwl, hlen]
  · intro w hwz h1
    have hww : w = w0 := by
      rw [hw] at hwz
      simpa using hwz.symm
    subst hww
    have h1b : 1 < s1.weights.length := by rw [hwl]; exact h1
    have hn : n = w.MSize := by
      have hsum0 : s0.wsum.length = n := hi0.sum (by rw [hw0]; exact h1)
      have h1c : weights.length > 1 := h1
      rw [hs0] at hsum0
      simp only [h1c, if_true, length_Resize] at hsum0
      exact hsum0.symm
    rw [← hn]
    exact ⟨hi1.tmp h1b, hi1.sum h1b, hi1.wsz, hi1.gsz⟩

/-- C16 at three devices and five calls in a row. -/
theorem calls_preserve_layout_witness :
    ∃ s1, SimpleSynch.calls cpuRuntime (· + ·) decimalAtoi scalarGroup
        [Call.SyncBeforeUpdate, Call.SetParam "sync_weight" "0", Call.SyncAfterUpdate,
         Call.SetParam "fc1:sync_weight" "5", Call.SyncAfterUpdate] = some s1 ∧
      SameLayout scalarGroup s1 ∧
      s1.weights.length = [rowTensor [101], rowTensor [0], rowTensor [0]].length ∧
      s1.grads.length = [rowTensor [1], rowTensor [2], rowTensor [3]].length ∧
      ∀ w0, [rowTensor [101], rowTensor [0], rowTensor [0]][0]? = some w0 →
        1 < [rowTensor [101], rowTensor [0], rowTensor [0]].length →
        s1.wtmp.length = w0.MSize ∧ s1.wsum.length = w0.MSize ∧
        (∀ t ∈ s1.weights, t.dptr_.length = w0.MSize) ∧
        (∀ t ∈ s1.grads, t.dptr_.length = w0.MSize) :=
  calls_preserve_layout cpuRuntime (· + ·) decimalAtoi "fc1"
    [rowTensor [101], rowTensor [0], rowTensor [0]]
    [rowTensor [1], rowTensor [2], rowTensor [3]] [0, 1, 2] scalarGroup scalarGroup
    (by rfl) (by decide) (by decide)
    [Call.SyncBeforeUpdate, Call.SetParam "sync_weight" "0", Call.SyncAfterUpdate,
     Call.SetParam "fc1:sync_weight" "5", Call.SyncAfterUpdate]

/-- C17: on a successfully constructed group, `SyncBeforeUpdate` returns with every
weight buffer and the flag `sync_weight` as they were, and `SyncAfterUpdate` returns
with every gradient buffer, the flag and the weight buffer of device 0 as they were. -/
theorem sync_methods_frame {S α : Type} [DecidableEq S] (rt : Runtime α)
    (add : α → α → α) (tag : String) (weights grads : List (Tensor S α))
    (devices : List Int) (s0 s : SimpleSynch S α)
    (hnew : SimpleSynch.new rt tag weights grads devices = .ok s0)
    (hv : ValidGroup weights grads devices) (hl : SameLayout s0 s) :
    (∃ s1, s.SyncBeforeUpdate rt add = some s1 ∧
      s1.weights = s.weights ∧ s1.sync_weight = s.sync_weight) ∧
    (∃ s2, s.SyncAfterUpdate rt = some s2 ∧
      s2.grads = s.grads ∧ s2.sync_weight = s.sync_weight ∧
      s2.weights[0]? = s.weights[0]?) := by
  obtain ⟨n, hi0⟩ := Inv_new rt tag weights grads devices s0 hnew hv
  have hi := Inv_sameLayout s0 s n hi0 hl
  obtain ⟨s1, h1, _, hw, hf⟩ := SyncBeforeUpdate_frame rt add s n hi
  obtain ⟨s2, h2, _, hg, hf2, hw0, _⟩ := SyncAfterUpdate_frame rt s n hi
  exact ⟨⟨s1, h1, hw, hf⟩, ⟨s2, h2, hg, hf2, hw0⟩⟩

/-- C17 at three devices with the flag on. -/
theorem sync_methods_frame_witness :
    (∃ s1, scalarGroup.SyncBeforeUpdate cpuRuntime (· + ·) = some s1 ∧
      s1.weights = scalarGroup.weights ∧ s1.sync_weight = scalarGroup.sync_weight) ∧
    (∃ s2, scalarGroup.SyncAfterUpdate cpuRuntime = some s2 ∧
      s2.grads = scalarGroup.grads ∧ s2.sync_weight = scalarGroup.sync_weight ∧
      s2.weights[0]? = scalarGroup.weights[0]?) :=
  sync_methods_frame cpuRuntime (· + ·) "fc1"
    [rowTensor [101], rowTensor [0], rowTensor [0]]
    [rowTensor [1], rowTensor [2], rowTensor [3]] [0, 1, 2] scalarGroup scalarGroup
    (by rfl) (by decide) (by decide)

/-- C18: on a group of `N >= 2` members with exact addition (a commutative group in
which no multiple of a nonzero element vanishes), two `SyncBeforeUpdate` calls in a
row return and keep the shape and element count of every gradient buffer; after the
first every gradient buffer is the elementwise sum of the original gradients, after the
second it is `N` times that sum, and the two differ as soon as one entry of the sum is
not zero. -/
theorem SyncBeforeUpdate_twice {S α : Type} [DecidableEq S] [AddCommGroup α]
    [NoZeroSMulDivisors ℕ α] (rt : Runtime α) (tag : String)
    (weights grads : List (Tensor S α)) (devices : List Int) (s0 s : SimpleSynch S α)
    (hnew : SimpleSynch.new rt tag weights grads devices = .ok s0)
    (hv : ValidGroup weights grads devices) (hl : SameLayout s0 s)
    (hN : 2 ≤ s.weights.length) :
    ∃ s1 s2, s.SyncBeforeUpdate rt (· + ·) = some s1 ∧
      s1.SyncBeforeUpdate rt (· + ·) = some s2 ∧
      s2.grads.length = s.grads.length ∧
      s1.grads.map Tensor.layout = s.grads.map Tensor.layout ∧
      s2.grads.map Tensor.layout = s.grads.map Tensor.layout ∧
      (∀ g ∈ s1.grads, g.dptr_ = elementwiseSum g.dptr_.length (s.grads.map Tensor.dptr_)) ∧
      (∀ g ∈ s2.grads, g.dptr_ =
        (elementwiseSum g.dptr_.length (s.grads.map Tensor.dptr_)).map
          (fun x => s.weights.length • x)) ∧
      (∀ g1 ∈ s1.grads, ∀ g2 ∈ s2.grads, (∃ x ∈ g1.dptr_, x ≠ 0) →
        g2.dptr_ ≠ g1.dptr_) := by
  obtain ⟨n, hi0⟩ := Inv_new rt tag weights grads devices s0 hnew hv
  have hi := Inv_sameLayout s0 s n hi0 hl
  obtain ⟨t, htl, h1⟩ := SyncBeforeUpdate_sum_eq rt s n hi hN
  obtain ⟨s1, h1b, hl1, hw1, _⟩ := SyncBeforeUpdate_frame rt (· + ·) s n hi
  have hs1 : s1 = { s with
      wtmp := t,
      wsum := elementwiseSum n (s.grads.map Tensor.dptr_),
      grads := s.grads.map (fun g =>
        { g with dptr_ := elementwiseSum n (s.grads.map Tensor.dptr_) }) } := by
    rw [h1] at h1b
    exact (Option.some.inj h1b).symm
  have hi1 := Inv_sameLayout s s1 n hi hl1
  have hN1 : 2 ≤ s1.weights.length := by rw [hw1]; exact hN
  obtain ⟨t2, _, h2⟩ := SyncBeforeUpdate_sum_eq rt s1 n hi1 hN1
  have hmap : s1.grads.map Tensor.dptr_ =
      List.replicate s.weights.length (elementwiseSum n (s.grads.map Tensor.dptr_)) := by
    rw [hs1, ← hi.glen]
    simp only [List.map_map]
    exact List.map_const' _ _
  have hrep : elementwiseSum n (s1.grads.map Tensor.dptr_) =
      (elementwiseSum n (s.grads.map Tensor.dptr_)).map (fun x => s.weights.length • x) := by
    rw [hmap]
    exact elementwiseSum_replicate n _ _ (length_elementwiseSum n _)
  have hg1 : ∀ g ∈ s1.grads, g.dptr_ = elementwiseSum n (s.grads.map Tensor.dptr_) := by
    intro g hg
    rw [hs1] at hg
    obtain ⟨x, _, rfl⟩ := List.mem_map.mp hg
    rfl
  have hlay1 : s1.grads.map Tensor.layout = s.grads.map Tensor.layout := hl1.2.2.2.2.2.2
  refine ⟨s1, _, h1b, h2, ?_, hlay1, ?_, ?_, ?_, ?_⟩
  · show (s1.grads.map _).length = s.grads.length
    rw [List.length_map, hi1.glen, hw1, hi.glen]
  · show (s1.grads.map _).map Tensor.layout = s.grads.map Tensor.layout
    rw [map_layout_overwrite n _ (length_elementwiseSum n _) s1.grads hi1.gsz, hlay1]
  · intro g hg
    rw [hg1 g hg, length_elementwiseSum]
  · intro g hg
    obtain ⟨x, _, rfl⟩ := List.mem_map.mp hg
    show elementwiseSum n (s1.grads.map Tensor.dptr_) = _
    rw [hrep, List.length_map, length_elementwiseSum]
  · intro g1 hg1m g2 hg2m hnz heq
    obtain ⟨x, _, rfl⟩ := List.mem_map.mp hg2m
    have heq2 : elementwiseSum n (s1.grads.map Tensor.dptr_) = g1.dptr_ := heq
    rw [hrep, hg1 g1 hg1m] at heq2
    obtain ⟨y, hy, hy0⟩ := hnz
    rw [hg1 g1 hg1m] at hy
    have hall : ∀ a ∈ elementwiseSum n (s.grads.map Tensor.dptr_),
        s.weights.length • a = id a := by
      apply List.map_inj_left.mp
      rw [List.map_id]
      exact heq2
    have hy1 : s.weights.length • y = y := hall y hy
    obtain ⟨m, hm⟩ : ∃ m, s.weights.length = m + 1 := ⟨s.weights.length - 1, by omega⟩
    rw [hm, succ_nsmul, add_left_eq_self] at hy1
    rcases smul_eq_zero.mp hy1 with h | h
    · omega
    · exact hy0 h

/-- C18 at three devices with gradients 1, 2, 3: 6 after one call, 18 after two. -/
theorem SyncBeforeUpdate_twice_witness :
    (∃ s1 s2, scalarGroup.SyncBeforeUpdate cpuRuntime (· + ·) = some s1 ∧
      s1.SyncBeforeUpdate cpuRuntime (· + ·) = some s2 ∧
      s2.grads.length = scalarGroup.grads.length ∧
      s1.grads.map Tensor.layout = scalarGroup.grads.map Tensor.layout ∧
      s2.grads.map Tensor.layout = scalarGroup.grads.map Tensor.layout ∧
      (∀ g ∈ s1.grads,
        g.dptr_ = elementwiseSum g.dptr_.length (scalarGroup.grads.map Tensor.dptr_)) ∧
      (∀ g ∈ s2.grads, g.dptr_ =
        (elementwiseSum g.dptr_.length (scalarGroup.grads.map Tensor.dptr_)).map
          (fun x => scalarGroup.weights.length • x)) ∧
      (∀ g1 ∈ s1.grads, ∀ g2 ∈ s2.grads, (∃ x ∈ g1.dptr_, x ≠ 0) →
        g2.dptr_ ≠ g1.dptr_)) ∧
    ((scalarGroup.SyncBeforeUpdate cpuRuntime (· + ·)).bind
        (SimpleSynch.SyncBeforeUpdate cpuRuntime (· + ·))).map
      (fun s2 => s2.grads.map Tensor.dptr_) = some [[18], [18], [18]] :=
  ⟨SyncBeforeUpdate_twice cpuRuntime "fc1"
      [rowTensor [101], rowTensor [0], rowTensor [0]]
      [rowTensor [1], rowTensor [2], rowTensor [3]] [0, 1, 2] scalarGroup scalarGroup
      (by rfl) (by decide) (by decide) (by decide), by rfl⟩

end cxxnet.sync
